import Mathlib

/-!
Shallow embedding of the `service-manager` IoC container
(`src/service-manager/ServiceManager.ts` and
`src/serviceManager/DependencyResolver.ts`) and proofs about it.

The TypeScript code is asynchronous and stateful.  We embed it in two ways:

* a sequential interpreter (`loadServiceFuel` and the functions it calls),
  which follows the source line by line for executions in which each
  asynchronous operation runs to completion before the next one observes
  shared state — this is the semantics of non-overlapping `await` chains;
* a small-step interleaving machine (`cstep`/`runC`) for overlapping
  concurrent `loadService` calls on one instance name, whose steps are the
  synchronous segments between `await` suspension points of the source.

JavaScript values that matter to the container (truthiness, `undefined`,
instances) are modelled by `JSValue`; machine-level recursion of the
source that has no termination guarantee (the dependency-name walk) is
modelled with explicit fuel, `none` meaning the computation did not finish
within the given fuel.
-/

deriving instance DecidableEq for Except

namespace SvcM

/-- A JavaScript value as far as the container observes it: the container
only branches on truthiness and stores opaque instance references. -/
inductive JSValue where
  | vNull
  | vUndefined
  | vBool (b : Bool)
  | vNum (n : Int)
  | vStr (s : String)
  | vInstance (id : Nat)
  deriving DecidableEq

/-- JavaScript truthiness for the fragment of values we model. -/
def truthy : JSValue → Bool
  | .vNull => false
  | .vUndefined => false
  | .vBool b => b
  | .vNum n => n != 0
  | .vStr s => s != ""
  | .vInstance _ => true

/-- A constructor function (a class): its name and the method names its
instances expose as invokable functions. -/
structure ServiceClass where
  className : String
  methods : List String
  deriving DecidableEq

/-- A module object as returned by a resolved dynamic import; its
`default` export may be absent (`defaultExport = none` models a module
object with no usable `default`). -/
structure JSModule where
  defaultExport : Option ServiceClass
  deriving DecidableEq

/-- Behaviour of a `pathToService` accessor once invoked: it either
throws/rejects (`Except.error`), or resolves to `null`/`undefined`
(`Except.ok none`), or resolves to a module object. -/
def PathResult : Type := Except Unit (Option JSModule)

instance : DecidableEq PathResult := by
  unfold PathResult; infer_instance

/-- An injection spec object.  `serviceInstanceName = some n` models the
presence of a `serviceInstanceName` key (the code tests key presence with
`in`), `customInjection = some v` the presence of a `customInjection`
key.  An object with neither key is the invalid shape. -/
structure ServiceInjection where
  serviceInstanceName : Option String
  customInjection : Option JSValue
  deriving DecidableEq

/-- A service descriptor, mirroring `ServiceDefinition` of
`services.type.ts`.  `serviceInstanceName = none` models an absent key;
`pathToService = none` models a missing/null accessor. -/
structure ServiceDefinition where
  serviceClassName : String
  serviceInstanceName : Option String
  serviceInjections : Option (List ServiceInjection)
  postBuildAsyncActions : Option (List String)
  pathToService : Option PathResult
  deriving DecidableEq

/-- The error taxonomy of `serviceManager.error`, with the data each
message carries.  `notAConstructor` stands for the JavaScript `TypeError`
raised by `new x` when `x` is not a constructor. -/
inductive SMError where
  | definitionNotFound (name : String)
  | invalidInjection (inj : ServiceInjection)
  | invalidPostBuildAction (methodName : String) (className : String)
  | invalidPath (name : String)
  | pathNotFound (name : String)
  | notAConstructor (name : String)
  deriving DecidableEq

/-- Observable side effects, recorded in order: a constructor invocation
(`new`), a post-build action invocation, and an invocation of a
descriptor's `pathToService` accessor. -/
inductive Event where
  | constructed (className : String) (args : List JSValue) (id : Nat)
  | actionRun (id : Nat) (methodName : String)
  | accessorInvoked (name : String)
  deriving DecidableEq

/-- Association-list lookup, modelling `obj[key]` (`none` = key absent,
i.e. `undefined`). -/
def assocGet {α : Type} (l : List (String × α)) (k : String) : Option α :=
  (l.find? fun p => p.1 == k).map (·.2)

/-- Association-list update, modelling `obj[key] = v`. -/
def assocSet {α : Type} (l : List (String × α)) (k : String) (v : α) :
    List (String × α) :=
  match l with
  | [] => [(k, v)]
  | (k₁, v₁) :: t => if k₁ == k then (k, v) :: t else (k₁, v₁) :: assocSet t k v

/-- Association-list removal, modelling `delete obj[key]`. -/
def assocErase {α : Type} (l : List (String × α)) (k : String) :
    List (String × α) :=
  match l with
  | [] => []
  | (k₁, v₁) :: t => if k₁ == k then t else (k₁, v₁) :: assocErase t k

/-- The mutable state of one container: the descriptor table (aliased and
mutated in place by `loadServiceInternal`), the Singleton Instance Cache
(`loadedServices`), the Loaded Module Cache (`loadedServiceModules`,
whose stored value may itself be `undefined`, hence `Option ServiceClass`),
the In-Flight Load Table (`serviceModulePromises`, each settled entry
recording the outcome its promise carries), a fresh-instance counter, and
the event log. -/
structure SMState where
  defs : List ServiceDefinition
  loadedServices : List (String × JSValue)
  loadedServiceModules : List (String × Option ServiceClass)
  serviceModulePromises : List (String × Except SMError (Option ServiceClass))
  nextId : Nat
  events : List Event
  deriving DecidableEq

/-- `DependencyResolver.getServiceDefinition`'s match test:
`element.serviceInstanceName ? element.serviceInstanceName === name
: element.serviceClassName === name` — note the truthiness test, under
which an empty-string instance name falls back to the class-name
comparison. -/
def serviceDefinitionMatches (e : ServiceDefinition) (name : String) : Bool :=
  match e.serviceInstanceName with
  | some i => if i != "" then i == name else e.serviceClassName == name
  | none => e.serviceClassName == name

/-- `DependencyResolver.getServiceDefinition`: first match in table order,
`none` when no descriptor matches. -/
def getServiceDefinition (defs : List ServiceDefinition) (name : String) :
    Option ServiceDefinition :=
  defs.find? fun e => serviceDefinitionMatches e name

/-- `DependencyResolver.isModuleLoaded`: truthiness of
`loadedServiceModules[name]` — absent and stored-`undefined` entries both
count as not loaded. -/
def isModuleLoaded (loaded : List (String × Option ServiceClass))
    (name : String) : Bool :=
  match assocGet loaded name with
  | some (some _) => true
  | _ => false

/-- The loop body of `DependencyResolver.getUnloadedInjectionNames`,
abstracted over the recursive call `rec` (which the caller instantiates
with the walk at one less fuel): skip injections without a
`serviceInstanceName` key, skip names whose module is loaded, otherwise
emit the name followed by the names computed for the referenced
descriptor (the code's `push(injectionInstanceName, ...subInjections)`). -/
def unloadedLoop (defs : List ServiceDefinition)
    (loaded : List (String × Option ServiceClass))
    (rec : Option ServiceDefinition → Option (List String)) :
    List ServiceInjection → Option (List String)
  | [] => some []
  | ⟨none, _⟩ :: rest => unloadedLoop defs loaded rec rest
  | ⟨some n, _⟩ :: rest =>
    if isModuleLoaded loaded n then unloadedLoop defs loaded rec rest
    else
      (rec (getServiceDefinition defs n)).bind fun sub =>
        (unloadedLoop defs loaded rec rest).map fun tail => n :: (sub ++ tail)

/-- `DependencyResolver.getUnloadedInjectionNames`, with explicit fuel:
`none` means the recursion did not finish within `fuel` nested calls
(the source has no termination guarantee, see the cyclic-table results). -/
def getUnloadedInjectionNamesF :
    Nat → List ServiceDefinition → List (String × Option ServiceClass) →
    Option ServiceDefinition → Option (List String)
  | 0, _, _, _ => none
  | fuel + 1, defs, loaded, d? =>
    match d? with
    | none => some []
    | some d =>
      match d.serviceInjections with
      | none => some []
      | some injs =>
        unloadedLoop defs loaded
          (getUnloadedInjectionNamesF fuel defs loaded) injs

/-- Concatenation of per-injection contributions: each injection
contributes a chunk of names; the walk's result is the chunks in
declaration order, flattened. -/
def specLoop (g : ServiceInjection → Option (List String)) :
    List ServiceInjection → Option (List String)
  | [] => some []
  | inj :: rest =>
    (g inj).bind fun chunk =>
      (specLoop g rest).map fun tail => chunk ++ tail

/-- The unloaded-dependency-name sequence as the specification words it:
walk the service-reference injections in order; a reference whose module
is already loaded contributes nothing (pruned); an unloaded reference
contributes its name followed by the recursively computed sequence of the
referenced descriptor (depth-first, pre-order), duplicates kept; custom
injections (no `serviceInstanceName`) contribute nothing. -/
def specUnloadedNames :
    Nat → List ServiceDefinition → List (String × Option ServiceClass) →
    Option ServiceDefinition → Option (List String)
  | 0, _, _, _ => none
  | fuel + 1, defs, loaded, d? =>
    match d? with
    | none => some []
    | some d =>
      match d.serviceInjections with
      | none => some []
      | some injs =>
        specLoop (fun inj =>
          match inj.serviceInstanceName with
          | none => some []
          | some n =>
            if isModuleLoaded loaded n then some []
            else
              (specUnloadedNames fuel defs loaded
                (getServiceDefinition defs n)).map fun sub => n :: sub) injs

/-- `DependencyResolver.importServiceFromPath`: returns `none` (the
source's `null`) when there is no descriptor or no `pathToService`,
otherwise the behaviour of invoking the accessor. -/
def importServiceFromPath (d? : Option ServiceDefinition) :
    Option PathResult :=
  match d? with
  | none => none
  | some d => d.pathToService

/-- `DependencyResolver.loadDependency`: look up the descriptor, invoke
its accessor inside `try`; a throw/rejection becomes `invalidPath`; a
`null`/`undefined` result of the whole `await` (including the
no-descriptor and no-accessor cases) becomes `pathNotFound`; otherwise
the module's `default` export — even when absent — is stored in the
Loaded Module Cache under `name` and returned. -/
def loadDependencyF (s : SMState) (name : String) :
    SMState × Except SMError (Option ServiceClass) :=
  match importServiceFromPath (getServiceDefinition s.defs name) with
  | none => (s, .error (.pathNotFound name))
  | some pr =>
    let s₁ := { s with events := s.events ++ [.accessorInvoked name] }
    match pr with
    | .error _ => (s₁, .error (.invalidPath name))
    | .ok none => (s₁, .error (.pathNotFound name))
    | .ok (some m) =>
      ({ s₁ with
          loadedServiceModules :=
            assocSet s₁.loadedServiceModules name m.defaultExport },
        .ok m.defaultExport)

/-- The loop of `DependencyResolver.loadDependencies`: for each name in
order, reuse the settled in-flight entry when one exists, otherwise run
`loadDependency` and record its outcome as the new in-flight entry;
collect every awaited outcome in input order. -/
def loadDependenciesGo (s : SMState) :
    List String → SMState × List (Except SMError (Option ServiceClass))
  | [] => (s, [])
  | n :: rest =>
    match assocGet s.serviceModulePromises n with
    | some r =>
      let (s₂, rs) := loadDependenciesGo s rest
      (s₂, r :: rs)
    | none =>
      let (s₁, r) := loadDependencyF s n
      let s₁ := { s₁ with
        serviceModulePromises := assocSet s₁.serviceModulePromises n r }
      let (s₂, rs) := loadDependenciesGo s₁ rest
      (s₂, r :: rs)

/-- `Promise.all` over settled outcomes: the first rejection in array
order, else success. -/
def firstError {α : Type} : List (Except SMError α) → Except SMError Unit
  | [] => .ok ()
  | .error e :: _ => .error e
  | .ok _ :: rest => firstError rest

/-- `DependencyResolver.loadDependencies`. -/
def loadDependenciesSeq (s : SMState) (names : List String) :
    SMState × Except SMError Unit :=
  let (s₁, rs) := loadDependenciesGo s names
  (s₁, firstError rs)

/-- `AdaptedServiceDefinition`: a descriptor together with the
(now guaranteed present) instance name under which it is processed. -/
structure AdaptedServiceDefinition where
  base : ServiceDefinition
  serviceInstanceName : String
  deriving DecidableEq

/-- `DependencyResolver.resolve`: compute the unloaded-dependency names,
append the descriptor's own instance name, and load them all. -/
def resolveF (fuel : Nat) (s : SMState) (ad : AdaptedServiceDefinition) :
    Option (SMState × Except SMError Unit) :=
  (getUnloadedInjectionNamesF fuel s.defs s.loadedServiceModules
      (some ad.base)).map fun names =>
    loadDependenciesSeq s (names ++ [ad.serviceInstanceName])

/-- Type of the (fuel-instantiated) `loadService` entry point that
`parseInjections` re-enters for service-reference injections. -/
def LoadFn : Type :=
  SMState → String → Option (SMState × Except SMError JSValue)

/-- Exception propagation glue for one `await`: an error outcome
propagates unchanged, a success continues with `k`. -/
def exceptStep {α β : Type}
    (k : SMState → α → Option (SMState × Except SMError β)) :
    SMState × Except SMError α → Option (SMState × Except SMError β)
  | (s₁, .error e) => some (s₁, .error e)
  | (s₁, .ok a) => k s₁ a

/-- `if (loadedInjection) loadedInjections.push(loadedInjection)`: append
the resolved value to the collected argument list only when truthy. -/
def pushIf (v : JSValue) :
    SMState × Except SMError (List JSValue) →
      SMState × Except SMError (List JSValue)
  | (s₂, .error e) => (s₂, .error e)
  | (s₂, .ok vs) => (s₂, .ok (if truthy v then v :: vs else vs))

/-- Unconditional positional collection (the specification's resolved
value sequence before the falsy drop). -/
def pushAll (v : JSValue) :
    SMState × Except SMError (List JSValue) →
      SMState × Except SMError (List JSValue)
  | (s₂, .error e) => (s₂, .error e)
  | (s₂, .ok vs) => (s₂, .ok (v :: vs))

/-- `ServiceManager.parseInjections`: process injection specs in order;
a spec with a `serviceInstanceName` key re-enters `loadService`
(key-presence is tested first, so an object with both keys is treated as
a service reference); otherwise a spec with a `customInjection` key
yields its literal value; otherwise the spec is invalid and aborts with
`invalidInjection` carrying the offending object.  Each resolved value is
pushed onto the argument list only when truthy (`if (loadedInjection)`). -/
def parseInjectionsF (load : LoadFn) :
    SMState → List ServiceInjection →
    Option (SMState × Except SMError (List JSValue))
  | s, [] => some (s, .ok [])
  | s, ⟨some n, _⟩ :: rest =>
    (load s n).bind (exceptStep fun s₁ v =>
      (parseInjectionsF load s₁ rest).map (pushIf v))
  | s, ⟨none, some v⟩ :: rest =>
    (parseInjectionsF load s rest).map (pushIf v)
  | s, ⟨none, none⟩ :: _ => some (s, .error (.invalidInjection ⟨none, none⟩))

/-- The resolved injection values in declaration order, with no value
dropped — the positional argument list the specification describes before
the falsy-drop quirk is applied.  Identical control flow to
`parseInjectionsF` except that every resolved value is kept. -/
def resolveAllInjections (load : LoadFn) :
    SMState → List ServiceInjection →
    Option (SMState × Except SMError (List JSValue))
  | s, [] => some (s, .ok [])
  | s, ⟨some n, _⟩ :: rest =>
    (load s n).bind (exceptStep fun s₁ v =>
      (resolveAllInjections load s₁ rest).map (pushAll v))
  | s, ⟨none, some v⟩ :: rest =>
    (resolveAllInjections load s rest).map (pushAll v)
  | s, ⟨none, none⟩ :: _ => some (s, .error (.invalidInjection ⟨none, none⟩))

/-- `ServiceManager.postBuildActions`' loop: invoke the named methods on
the instance sequentially in declared order; a name that is not an
invokable method of the instance's class aborts with
`invalidPostBuildAction` carrying the method name and the descriptor's
`serviceClassName`. -/
def runPostBuildF (cls : ServiceClass) (ownerClassName : String) (id : Nat) :
    SMState → List String → SMState × Except SMError Unit
  | s, [] => (s, .ok ())
  | s, m :: rest =>
    if cls.methods.contains m then
      runPostBuildF cls ownerClassName id
        { s with events := s.events ++ [.actionRun id m] } rest
    else (s, .error (.invalidPostBuildAction m ownerClassName))

/-- `ServiceManager.createInstance`'s injection step: `let injections =
[]` unless the descriptor has `serviceInjections`, in which case
`parseInjections` runs. -/
def injectionsPhase (load : LoadFn) (s : SMState)
    (ad : AdaptedServiceDefinition) :
    Option (SMState × Except SMError (List JSValue)) :=
  match ad.base.serviceInjections with
  | none => some (s, .ok [])
  | some injs => parseInjectionsF load s injs

/-- After the post-build actions: propagate their failure, or
`deleteModulePromise` and return the built instance with its argument
list. -/
def finishPhase (ad : AdaptedServiceDefinition) (id : Nat)
    (args : List JSValue) :
    SMState × Except SMError Unit →
      SMState × Except SMError (JSValue × List JSValue)
  | (s₃, .error e) => (s₃, .error e)
  | (s₃, .ok _) =>
    ({ s₃ with
        serviceModulePromises :=
          assocErase s₃.serviceModulePromises ad.serviceInstanceName },
      .ok (.vInstance id, args))

/-- The tail of `ServiceManager.createInstance` once the argument list is
assembled and the loaded constructor found: `new` (recording the
constructor run), then the post-build actions (skipped when the
descriptor lists none), then `deleteModulePromise`. -/
def constructPhase (s₁ : SMState) (ad : AdaptedServiceDefinition)
    (cls : ServiceClass) (args : List JSValue) :
    SMState × Except SMError (JSValue × List JSValue) :=
  let id := s₁.nextId
  let s₂ := { s₁ with
    nextId := id + 1,
    events := s₁.events ++ [.constructed cls.className args id] }
  finishPhase ad id args
    (match ad.base.postBuildAsyncActions with
      | none => (s₂, Except.ok ())
      | some acts => runPostBuildF cls ad.base.serviceClassName id s₂ acts)

/-- After the argument list: fetch the loaded constructor (`new` on a
missing or `undefined` entry throws) and run the construction tail. -/
def buildStep (ad : AdaptedServiceDefinition) :
    SMState × Except SMError (List JSValue) →
      SMState × Except SMError (JSValue × List JSValue)
  | (s₁, .error e) => (s₁, .error e)
  | (s₁, .ok args) =>
    match assocGet s₁.loadedServiceModules ad.serviceInstanceName with
    | some (some cls) => constructPhase s₁ ad cls args
    | _ => (s₁, .error (.notAConstructor ad.serviceInstanceName))

/-- `ServiceManager.createInstance`: assemble the argument list, then
fetch the loaded constructor, build, run post-build actions, and delete
the in-flight entry.  On success the result carries the fresh instance
and the argument list it was constructed with. -/
def createInstanceF (load : LoadFn) (s : SMState)
    (ad : AdaptedServiceDefinition) :
    Option (SMState × Except SMError (JSValue × List JSValue)) :=
  (injectionsPhase load s ad).map (buildStep ad)

/-- After `createInstance`: store a successfully built instance in the
Singleton Instance Cache under the instance name and return it. -/
def cacheStep (ad : AdaptedServiceDefinition) :
    SMState × Except SMError (JSValue × List JSValue) →
      SMState × Except SMError JSValue
  | (s₃, .error e) => (s₃, .error e)
  | (s₃, .ok b) =>
    ({ s₃ with
        loadedServices :=
          assocSet s₃.loadedServices ad.serviceInstanceName b.1 },
      .ok b.1)

/-- `ServiceManager.getInstanceInternal`: resolve dependencies unless
the module is already loaded, build the instance, cache it, return it. -/
def getInstanceInternalF (load : LoadFn) (fuel : Nat) (s : SMState)
    (ad : AdaptedServiceDefinition) :
    Option (SMState × Except SMError JSValue) :=
  (if isModuleLoaded s.loadedServiceModules ad.serviceInstanceName
    then some (s, Except.ok ())
    else resolveF fuel s ad).bind (exceptStep fun s₂ _ =>
    (createInstanceF load s₂ ad).map (cacheStep ad))

/-- The in-place defaulting of `loadServiceInternal`: a descriptor
without a `serviceInstanceName` key gets its class name written into that
field; one with the key (even an empty string) is left alone. -/
def adaptDef (d : ServiceDefinition) : ServiceDefinition :=
  match d.serviceInstanceName with
  | some _ => d
  | none => { d with serviceInstanceName := some d.serviceClassName }

/-- `ServiceManager.loadService` / `loadServiceInternal`, with fuel
bounding the recursion depth through injections: return the cached
instance when the cache entry is truthy; fail with `definitionNotFound`
when no descriptor matches; otherwise default a missing
`serviceInstanceName` to the class name by writing it into the descriptor
in place (the table is mutated), and hand over to `getInstanceInternal`. -/
def loadServiceFuel : Nat → SMState → String →
    Option (SMState × Except SMError JSValue)
  | 0, _, _ => none
  | fuel + 1, s, name =>
    let service := (assocGet s.loadedServices name).getD .vUndefined
    if truthy service then some (s, .ok service)
    else
      match getServiceDefinition s.defs name with
      | none => some (s, .error (.definitionNotFound name))
      | some d =>
        let d₁ := adaptDef d
        let s₁ := { s with
          defs := s.defs.set
            (s.defs.findIdx fun e => serviceDefinitionMatches e name) d₁ }
        getInstanceInternalF (loadServiceFuel fuel) fuel s₁
          ⟨d₁, d₁.serviceInstanceName.getD ""⟩

/-!
Interleaving machine for overlapping concurrent `loadService` calls on a
single instance name whose descriptor has no injections and no post-build
actions.  Up to three callers (tasks) run the `loadServiceInternal` code;
a schedule is the list of scheduler choices.  Each event is one
synchronous segment of the source between `await` suspension points:

* `start t` — the segment of `loadServiceInternal` from entry up to the
  `await Promise.all` inside `loadDependencies` (lines 125–157 of
  `ServiceManager.ts` plus lines 70–81 of `DependencyResolver.ts`): on a
  truthy cache entry the call returns it; else, if the module is already
  loaded, the task skips `resolve` and runs `createInstance` through to
  caching; else it ensures an in-flight entry exists — invoking
  `pathToService` only when it creates the entry — and suspends awaiting
  the shared promise.
* `moduleResolve` — the dynamic import settles: `loadDependency` stores
  the constructor in the Loaded Module Cache.
* `resume t` — a task suspended on the in-flight promise resumes after the
  module resolved: `createInstance` runs `new`, clears the in-flight
  entry, and `getInstanceInternal` stores the instance in the Singleton
  Instance Cache (lines 158–160) before the call returns.
-/

/-- Program counter of one concurrent `loadService` task. -/
inductive TaskPC where
  | idle
  | awaitingModule
  | done (v : JSValue)
  deriving DecidableEq

/-- The three concurrent callers. -/
inductive CTask where
  | ta
  | tb
  | tc
  deriving DecidableEq

/-- A scheduler choice. -/
inductive CEvent where
  | start (t : CTask)
  | moduleResolve
  | resume (t : CTask)
  deriving DecidableEq

/-- Shared container state projected to the one requested name:
`cache` is its Singleton Instance Cache entry, `moduleLoaded` its Loaded
Module Cache entry, `inflight` its In-Flight Load Table entry,
`accessorCount` how many times `pathToService` ran, `ctorCount` how many
times the constructor ran. -/
structure CState where
  cache : Option JSValue
  moduleLoaded : Bool
  inflight : Bool
  accessorCount : Nat
  ctorCount : Nat
  nextId : Nat
  pcA : TaskPC
  pcB : TaskPC
  pcC : TaskPC
  deriving DecidableEq

/-- Program counter of task `t`. -/
def getPc (s : CState) : CTask → TaskPC
  | .ta => s.pcA
  | .tb => s.pcB
  | .tc => s.pcC

/-- Replace the program counter of task `t`. -/
def setPc (s : CState) : CTask → TaskPC → CState
  | .ta, p => { s with pcA := p }
  | .tb, p => { s with pcB := p }
  | .tc, p => { s with pcC := p }

/-- The tail of `createInstance` and `getInstanceInternal` for a
descriptor with no injections and no post-build actions: run the
constructor on a fresh instance, delete the in-flight entry, store the
instance in the Singleton Instance Cache, return it. -/
def constructFinish (s : CState) (t : CTask) : CState :=
  setPc
    { s with
      ctorCount := s.ctorCount + 1
      nextId := s.nextId + 1
      inflight := false
      cache := some (.vInstance s.nextId) }
    t (.done (.vInstance s.nextId))

/-- One scheduler step (an event that is not enabled leaves the state
unchanged). -/
def cstep (s : CState) : CEvent → CState
  | .start t =>
    match getPc s t with
    | .idle =>
      match s.cache with
      | some v => setPc s t (.done v)
      | none =>
        if s.moduleLoaded then constructFinish s t
        else if s.inflight then setPc s t .awaitingModule
        else
          setPc
            { s with inflight := true, accessorCount := s.accessorCount + 1 }
            t .awaitingModule
    | _ => s
  | .moduleResolve =>
    if s.accessorCount != 0 && !s.moduleLoaded then
      { s with moduleLoaded := true }
    else s
  | .resume t =>
    match getPc s t with
    | .awaitingModule => if s.moduleLoaded then constructFinish s t else s
    | _ => s

/-- Initial concurrent state: empty caches, no in-flight load, all tasks
not yet started. -/
def initC : CState :=
  ⟨none, false, false, 0, 0, 0, .idle, .idle, .idle⟩

/-- Run a schedule from the initial state. -/
def runC (es : List CEvent) : CState :=
  es.foldl cstep initC

/-- Invariant of the concurrent machine: `pathToService` has run exactly
once if a load was ever started (witnessed by a loaded module or an
in-flight entry) and never otherwise. -/
def CInv (s : CState) : Prop :=
  s.accessorCount = (if s.moduleLoaded || s.inflight then 1 else 0)

/-!  Descriptor-table relation for the amended immutability statement. -/

/-- How one load call may change one descriptor: not at all, or — when it
had no explicit instance name — by writing its class name into
`serviceInstanceName`, every other field unchanged. -/
def defStep (d d' : ServiceDefinition) : Prop :=
  d' = d ∨
    (d.serviceInstanceName = none ∧
      d' = { d with serviceInstanceName := some d.serviceClassName })

/-- Pointwise closure of `defStep` over the descriptor table. -/
def DefsRel : List ServiceDefinition → List ServiceDefinition → Prop :=
  List.Forall₂ defStep

/-!  Predicates for the invalid-injection characterization. -/

/-- The invalid injection shape: an object carrying neither a
`serviceInstanceName` key nor a `customInjection` key. -/
def badShape (inj : ServiceInjection) : Prop :=
  inj.serviceInstanceName = none ∧ inj.customInjection = none

instance (inj : ServiceInjection) : Decidable (badShape inj) := by
  unfold badShape; infer_instance

/-- An error is sound for the invalid-injection characterization when,
if it is `invalidInjection`, its payload has the invalid shape. -/
def ErrOkE (e : SMError) : Prop :=
  ∀ i, e = .invalidInjection i → badShape i

/-- `ErrOkE` lifted to a call outcome. -/
def ResOk {α : Type} : Except SMError α → Prop
  | .error e => ErrOkE e
  | .ok _ => True

/-- Every settled in-flight entry of the state has a sound outcome. -/
def PromOk (s : SMState) : Prop :=
  ∀ p ∈ s.serviceModulePromises, ResOk p.2

/-!  The matching rule of claim C6, written from the claim's words, and
the amended matching rule. -/

/-- Matching as claim C6 words it: the explicit instance name equals the
requested name, or — only when there is no explicit instance name — the
class name equals it. -/
def claimMatchesC6 (e : ServiceDefinition) (name : String) : Bool :=
  match e.serviceInstanceName with
  | some i => i == name
  | none => e.serviceClassName == name

/-- Matching as amended: a present *non-empty* instance name must equal
the requested name; an absent or empty instance name defers to the class
name. -/
def amendedMatches (e : ServiceDefinition) (name : String) : Bool :=
  match e.serviceInstanceName with
  | some i => if i == "" then e.serviceClassName == name else i == name
  | none => e.serviceClassName == name

/-!  Rank condition expressing acyclicity of the service-reference graph
restricted to not-yet-loaded modules (claim C10). -/

/-- One service-reference edge respects the rank bound `rd`: an unloaded
reference to a defined descriptor must strictly decrease the rank. -/
def injEdgeOk (defs : List ServiceDefinition)
    (loaded : List (String × Option ServiceClass))
    (r : ServiceDefinition → Nat) (rd : Nat) (inj : ServiceInjection) :
    Bool :=
  match inj.serviceInstanceName with
  | none => true
  | some n =>
    if isModuleLoaded loaded n then true
    else
      match getServiceDefinition defs n with
      | none => true
      | some c => decide (r c < rd)

/-- The service-reference graph of the table, restricted to unloaded
modules, admits a strictly decreasing rank — i.e. it is acyclic. -/
def RankOk (defs : List ServiceDefinition)
    (loaded : List (String × Option ServiceClass))
    (r : ServiceDefinition → Nat) : Prop :=
  ∀ d ∈ defs, ∀ inj ∈ d.serviceInjections.getD [],
    injEdgeOk defs loaded r (r d) inj = true

instance (defs : List ServiceDefinition)
    (loaded : List (String × Option ServiceClass))
    (r : ServiceDefinition → Nat) : Decidable (RankOk defs loaded r) := by
  unfold RankOk; infer_instance

/-!  Concrete inputs used by the counterexamples and witnesses. -/

/-- A class named `A` with no methods. -/
def clsA : ServiceClass := ⟨"A", []⟩

/-- A descriptor for class `A` with no explicit instance name and a
well-behaved accessor. -/
def defC5 : ServiceDefinition :=
  ⟨"A", none, none, none, some (.ok (some ⟨some clsA⟩))⟩

/-- Fresh container whose table holds only `defC5`. -/
def s0C5 : SMState := ⟨[defC5], [], [], [], 0, []⟩

/-- `defC5` after the in-place instance-name defaulting. -/
def d1C5 : ServiceDefinition :=
  { defC5 with serviceInstanceName := some "A" }

/-- Container state after `loadService "A"` on `s0C5`. -/
def sAfterC5 : SMState :=
  ⟨[d1C5], [("A", .vInstance 0)], [("A", some clsA)], [], 1,
    [.accessorInvoked "A", .constructed "A" [] 0]⟩

/-- A descriptor whose accessor resolves to a module object with no
`default` export. -/
def defC4 : ServiceDefinition := ⟨"A", none, none, none, some (.ok (some ⟨none⟩))⟩

/-- Fresh container whose table holds only `defC4`. -/
def s0C4 : SMState := ⟨[defC4], [], [], [], 0, []⟩

/-- A descriptor with class name `A` and an explicit *empty-string*
instance name. -/
def dC6 : ServiceDefinition := ⟨"A", some "", none, none, none⟩

/-- Table holding only `dC6`. -/
def defsC6 : List ServiceDefinition := [dC6]

/-- A leaf descriptor `B` with no injections. -/
def dupB : ServiceDefinition := ⟨"B", none, none, none, none⟩

/-- A root descriptor `X` referencing `B` twice. -/
def dupRoot : ServiceDefinition :=
  ⟨"X", none, some [⟨some "B", none⟩, ⟨some "B", none⟩], none, none⟩

/-- Table with a duplicated service reference. -/
def dupDefs : List ServiceDefinition := [dupRoot, dupB]

/-- Rank function witnessing acyclicity of `dupDefs`. -/
def dupRank : ServiceDefinition → Nat :=
  fun d => if d.serviceClassName = "X" then 1 else 0

/-- Descriptor `A` referencing `B`. -/
def cycA : ServiceDefinition := ⟨"A", none, some [⟨some "B", none⟩], none, none⟩

/-- Descriptor `B` referencing `A` — closing the cycle. -/
def cycB : ServiceDefinition := ⟨"B", none, some [⟨some "A", none⟩], none, none⟩

/-- A mutually referential (cyclic) descriptor table. -/
def cycDefs : List ServiceDefinition := [cycA, cycB]

/-- A class named `W` with no methods. -/
def clsW : ServiceClass := ⟨"W", []⟩

/-- Adapted descriptor for `W` with two custom injections, the first one
falsy (`0`) and the second truthy (`"x"`). -/
def adW : AdaptedServiceDefinition :=
  ⟨⟨"W", some "W", some [⟨none, some (.vNum 0)⟩, ⟨none, some (.vStr "x")⟩],
      none, some (.ok (some ⟨some clsW⟩))⟩, "W"⟩

/-- Container state with `W`'s module already loaded. -/
def sW : SMState := ⟨[adW.base], [], [("W", some clsW)], [], 0, []⟩

/-- A `loadService` stand-in that always succeeds with a fixed instance
(never invoked by the custom-injection witnesses). -/
def loadTrivial : LoadFn := fun s _ => some (s, .ok (.vInstance 99))

/-- A class named `P` exposing one invokable method `good`. -/
def clsP : ServiceClass := ⟨"P", ["good"]⟩

/-- Adapted descriptor for `P` listing post-build actions
`["good", "bad"]`, of which `bad` is not a method of `P`. -/
def adP : AdaptedServiceDefinition :=
  ⟨⟨"P", some "P", none, some ["good", "bad"], none⟩, "P"⟩

/-- Container state with `P`'s module already loaded. -/
def sP : SMState := ⟨[adP.base], [], [("P", some clsP)], [], 0, []⟩

/-- Container state after `createInstance` on `sW`/`adW`. -/
def sWAfter : SMState :=
  ⟨[adW.base], [], [("W", some clsW)], [], 1, [.constructed "W" [.vStr "x"] 0]⟩

/-- The invalidly shaped injection spec: neither key present. -/
def injBad : ServiceInjection := ⟨none, none⟩

/-- A class named `Q` with no methods. -/
def clsQ : ServiceClass := ⟨"Q", []⟩

/-- A descriptor for `Q` whose injection list holds the invalid spec. -/
def defC9 : ServiceDefinition :=
  ⟨"Q", none, some [injBad], none, some (.ok (some ⟨some clsQ⟩))⟩

/-- Fresh container whose table holds only `defC9`. -/
def s0C9 : SMState := ⟨[defC9], [], [], [], 0, []⟩

/-- `defC9` after the in-place instance-name defaulting. -/
def d1C9 : ServiceDefinition := { defC9 with serviceInstanceName := some "Q" }

/-- Container state after the failing `loadService "Q"` on `s0C9`: the
module was loaded and its in-flight entry is still present (the failure
happened before `deleteModulePromise`), but no instance was built. -/
def s9After : SMState :=
  ⟨[d1C9], [], [("Q", some clsQ)], [("Q", .ok (some clsQ))], 0,
    [.accessorInvoked "Q"]⟩

/-- A descriptor whose accessor throws. -/
def defThrow : ServiceDefinition := ⟨"T", none, none, none, some (.error ())⟩

/-- Fresh container whose table holds only `defThrow`. -/
def sThrow : SMState := ⟨[defThrow], [], [], [], 0, []⟩

/-- A descriptor whose accessor resolves to `null`. -/
def defNullMod : ServiceDefinition := ⟨"N", none, none, none, some (.ok none)⟩

/-- Fresh container whose table holds only `defNullMod`. -/
def sNull : SMState := ⟨[defNullMod], [], [], [], 0, []⟩

/-- `defC5` adapted under instance name `A`. -/
def adC5 : AdaptedServiceDefinition := ⟨defC5, "A"⟩

/-- The outcome of `resolve` on `adC5` from `s0C5`: module `A` loaded and
recorded in-flight, one accessor run, success. -/
def rAfterC5 : SMState × Except SMError Unit :=
  (⟨[defC5], [], [("A", some clsA)], [("A", .ok (some clsA))], 0,
      [.accessorInvoked "A"]⟩,
    .ok ())

/-- A container state whose Singleton Instance Cache already holds an
instance under `"S"`. -/
def sC2 : SMState := ⟨[], [("S", .vInstance 7)], [], [], 3, []⟩

/-- The empty container state. -/
def emptyS : SMState := ⟨[], [], [], [], 0, []⟩

/-!  Theorems.  First the concurrent machine: the accessor-memoization
invariant and the two overlapping-load results. -/

theorem cinv_setPc (s : CState) (t : CTask) (p : TaskPC) :
    CInv (setPc s t p) ↔ CInv s := by
  cases t <;> simp [CInv, setPc]

theorem cinv_constructFinish (s : CState) (t : CTask)
    (hml : s.moduleLoaded = true) (h : CInv s) :
    CInv (constructFinish s t) := by
  rw [constructFinish, cinv_setPc]
  unfold CInv at h ⊢
  simp [hml] at h ⊢
  exact h

theorem cinv_step (s : CState) (e : CEvent) (h : CInv s) :
    CInv (cstep s e) := by
  cases e with
  | start t =>
    simp only [cstep]
    split
    · split
      · exact (cinv_setPc s t _).mpr h
      · split
        · next hml => exact cinv_constructFinish s t hml h
        · split
          · exact (cinv_setPc s t _).mpr h
          · next hml hin =>
            rw [cinv_setPc]
            have hml₁ : s.moduleLoaded = false := by simpa using hml
            have hin₁ : s.inflight = false := by simpa using hin
            unfold CInv at h ⊢
            rw [hml₁, hin₁] at h
            simp at h
            simp [hml₁, h]
    all_goals exact h
  | moduleResolve =>
    simp only [cstep]
    split
    · next hcond =>
      rw [Bool.and_eq_true, bne_iff_ne, Bool.not_eq_true'] at hcond
      obtain ⟨hac, hml⟩ := hcond
      unfold CInv at h ⊢
      rw [hml] at h
      simp at h ⊢
      cases hin : s.inflight with
      | true => rw [hin] at h; simpa using h
      | false => rw [hin] at h; simp at h; exact absurd h hac
    · exact h
  | resume t =>
    simp only [cstep]
    split
    · split
      · next hml => exact cinv_constructFinish s t hml h
      · exact h
    all_goals exact h

theorem cinv_run (es : List CEvent) :
    ∀ s : CState, CInv s → CInv (es.foldl cstep s) := by
  induction es with
  | nil => intro s h; exact h
  | cons e es ih => intro s h; exact ih _ (cinv_step s e h)

theorem runC_accessorCount_le_one (es : List CEvent) :
    (runC es).accessorCount ≤ 1 := by
  have h : CInv (runC es) := cinv_run es initC (by unfold CInv initC; simp)
  unfold CInv at h
  rw [h]
  split <;> omega

/-- C1: the claim — two overlapping concurrent `loadService` calls for one
name return the identical instance and the constructor runs exactly once —
is false on the code.  Schedule: both calls start (sharing the in-flight
module promise), the module resolves, then each call resumes: each runs
`createInstance` and `new`, so the constructor runs twice and the two
calls return distinct instances. -/
theorem claim_C1_counterexample :
    (runC [.start .ta, .start .tb, .moduleResolve, .resume .ta,
        .resume .tb]).ctorCount = 2 ∧
    (runC [.start .ta, .start .tb, .moduleResolve, .resume .ta,
        .resume .tb]).pcA = .done (.vInstance 0) ∧
    (runC [.start .ta, .start .tb, .moduleResolve, .resume .ta,
        .resume .tb]).pcB = .done (.vInstance 1) ∧
    JSValue.vInstance 0 ≠ JSValue.vInstance 1 := by
  refine ⟨by decide, by decide, by decide, by decide⟩

/-- C1 (amended): overlapping concurrent `loadService` calls for one name
share the single in-flight module load — the descriptor's `pathToService`
accessor runs at most once over every schedule — but each overlapping
call that reaches construction builds its own instance; only when the
second call starts after the first completed does it observe the cached
instance, so that the constructor has run exactly once and both calls
return the identical instance. -/
theorem claim_C1_amended :
    (∀ es : List CEvent, (runC es).accessorCount ≤ 1) ∧
    ((runC [.start .ta, .moduleResolve, .resume .ta, .start .tb]).ctorCount
        = 1 ∧
      (runC [.start .ta, .moduleResolve, .resume .ta, .start .tb]).pcA
        = .done (.vInstance 0) ∧
      (runC [.start .ta, .moduleResolve, .resume .ta, .start .tb]).pcB
        = .done (.vInstance 0)) :=
  ⟨runC_accessorCount_le_one, by decide, by decide, by decide⟩

/-- C2: the claim's clause that the singleton cache entry, once populated,
is never overwritten (and that later calls return the instance returned
by the first completed call) is false under overlap: task A completes and
caches instance 0, then task B — started before A completed — finishes
its own construction and overwrites the entry with instance 1; a call
started afterwards returns instance 1, not instance 0. -/
theorem claim_C2_counterexample :
    (runC [.start .ta, .start .tb, .moduleResolve, .resume .ta]).cache
      = some (.vInstance 0) ∧
    (runC [.start .ta, .start .tb, .moduleResolve, .resume .ta]).pcA
      = .done (.vInstance 0) ∧
    (runC [.start .ta, .start .tb, .moduleResolve, .resume .ta,
        .resume .tb]).cache = some (.vInstance 1) ∧
    (runC [.start .ta, .start .tb, .moduleResolve, .resume .ta, .resume .tb,
        .start .tc]).pcC = .done (.vInstance 1) ∧
    JSValue.vInstance 1 ≠ JSValue.vInstance 0 := by
  refine ⟨by decide, by decide, by decide, by decide, by decide⟩

/-- C2 (amended): in execution without overlapping in-flight builds for
`name` — in particular whenever a `loadService name` call begins after an
earlier one completed — a truthy Singleton Instance Cache entry is
returned immediately and the whole container state is unchanged: the
descriptor is not re-resolved, no constructor runs, no post-build action
runs, and the cache entry is not overwritten.  (Under overlap the entry
can be overwritten; see the counterexample.) -/
theorem claim_C2_amended (fuel : Nat) (s : SMState) (name : String)
    (v : JSValue) (h : assocGet s.loadedServices name = some v)
    (ht : truthy v = true) :
    loadServiceFuel (fuel + 1) s name = some (s, .ok v) := by
  unfold loadServiceFuel
  simp [h, ht]

theorem claim_C2_witness :
    loadServiceFuel 6 sC2 "S" = some (sC2, .ok (.vInstance 7)) :=
  claim_C2_amended 5 sC2 "S" (.vInstance 7) (by decide) (by decide)

/-!  The falsy-drop refinement: `parseInjections` computes exactly the
truthy sublist of the positionally resolved injection values. -/

theorem parse_resolveAll (load : LoadFn) :
    ∀ (injs : List ServiceInjection) (s s₁ : SMState) (vals : List JSValue),
      parseInjectionsF load s injs = some (s₁, .ok vals) →
      ∃ rs, resolveAllInjections load s injs = some (s₁, .ok rs) ∧
        vals = rs.filter truthy := by
  intro injs
  induction injs with
  | nil =>
    intro s s₁ vals h
    simp only [parseInjectionsF, Option.some_inj, Prod.mk.injEq,
      Except.ok.injEq] at h
    obtain ⟨rfl, rfl⟩ := h
    exact ⟨[], by simp [resolveAllInjections], by simp⟩
  | cons inj rest ih =>
    intro s s₁ vals h
    obtain ⟨kn, kc⟩ := inj
    cases kn with
    | some n =>
      rw [parseInjectionsF] at h
      cases hl : load s n with
      | none => rw [hl] at h; simp at h
      | some p =>
        obtain ⟨sm, r⟩ := p
        rw [hl, Option.some_bind] at h
        cases r with
        | error e => simp [exceptStep] at h
        | ok v =>
          simp only [exceptStep] at h
          cases hp : parseInjectionsF load sm rest with
          | none => rw [hp] at h; simp at h
          | some q =>
            obtain ⟨s₂, r₂⟩ := q
            rw [hp, Option.map_some'] at h
            cases r₂ with
            | error e => simp [pushIf] at h
            | ok vs =>
              simp only [pushIf, Option.some_inj, Prod.mk.injEq,
                Except.ok.injEq] at h
              obtain ⟨hs, hv⟩ := h
              obtain ⟨rs, hr, hf⟩ := ih sm s₂ vs hp
              refine ⟨v :: rs, ?_, ?_⟩
              · rw [resolveAllInjections, hl, Option.some_bind]
                simp only [exceptStep, hr, Option.map_some', pushAll, hs]
              · rw [← hv, hf, List.filter_cons]
    | none =>
      cases kc with
      | some v =>
        rw [parseInjectionsF] at h
        cases hp : parseInjectionsF load s rest with
        | none => rw [hp] at h; simp at h
        | some q =>
          obtain ⟨s₂, r₂⟩ := q
          rw [hp, Option.map_some'] at h
          cases r₂ with
          | error e => simp [pushIf] at h
          | ok vs =>
            simp only [pushIf, Option.some_inj, Prod.mk.injEq,
              Except.ok.injEq] at h
            obtain ⟨hs, hv⟩ := h
            obtain ⟨rs, hr, hf⟩ := ih s s₂ vs hp
            refine ⟨v :: rs, ?_, ?_⟩
            · rw [resolveAllInjections, hr, Option.map_some']
              simp only [pushAll, hs]
            · rw [← hv, hf, List.filter_cons]
      | none =>
        rw [parseInjectionsF] at h
        simp at h

/-!  Construction-phase projections. -/

theorem finishPhase_ok (ad : AdaptedServiceDefinition) (id : Nat)
    (args : List JSValue) (p : SMState × Except SMError Unit) (s₃ : SMState)
    (b : JSValue × List JSValue) (h : finishPhase ad id args p = (s₃, .ok b)) :
    b = (.vInstance id, args) := by
  obtain ⟨s₄, pr⟩ := p
  cases pr with
  | error e => simp [finishPhase] at h
  | ok u =>
    simp only [finishPhase, Prod.mk.injEq, Except.ok.injEq] at h
    exact h.2.symm

theorem constructPhase_ok (s₁ : SMState) (ad : AdaptedServiceDefinition)
    (cls : ServiceClass) (args : List JSValue) (s₃ : SMState)
    (b : JSValue × List JSValue)
    (h : constructPhase s₁ ad cls args = (s₃, .ok b)) :
    b = (.vInstance s₁.nextId, args) := by
  simp only [constructPhase] at h
  exact finishPhase_ok ad s₁.nextId args _ s₃ b h

/-- C3: a successfully constructed instance receives the resolved
injection values positionally in declaration order, except that every
falsy resolved value (`false`, `0`, `""`, `null`, `undefined`) is omitted
from the constructor argument list, shifting later arguments left: the
argument list `createInstance` passes to `new` is exactly the
truthy-filtered positional resolution of the descriptor's injections. -/
theorem claim_C3 (load : LoadFn) (s : SMState) (ad : AdaptedServiceDefinition)
    (s₁ : SMState) (b : JSValue × List JSValue)
    (h : createInstanceF load s ad = some (s₁, .ok b)) :
    ∃ s₂ rs,
      resolveAllInjections load s (ad.base.serviceInjections.getD []) =
        some (s₂, .ok rs) ∧ b.2 = rs.filter truthy := by
  unfold createInstanceF at h
  cases hip : injectionsPhase load s ad with
  | none => rw [hip] at h; simp at h
  | some p =>
    obtain ⟨sm, r⟩ := p
    rw [hip, Option.map_some'] at h
    cases r with
    | error e => simp [buildStep] at h
    | ok args =>
      simp only [buildStep] at h
      cases hmod : assocGet sm.loadedServiceModules ad.serviceInstanceName with
      | none => rw [hmod] at h; simp at h
      | some oc =>
        rw [hmod] at h
        cases oc with
        | none => simp at h
        | some cls =>
          simp only [Option.some_inj] at h
          have hb : b = (.vInstance sm.nextId, args) :=
            constructPhase_ok sm ad cls args s₁ b h
          have hinj : ∃ rs,
              resolveAllInjections load s
                  (ad.base.serviceInjections.getD []) = some (sm, .ok rs) ∧
                args = rs.filter truthy := by
            unfold injectionsPhase at hip
            cases hsi : ad.base.serviceInjections with
            | none =>
              rw [hsi] at hip
              simp only [Option.some_inj, Prod.mk.injEq, Except.ok.injEq]
                at hip
              obtain ⟨hs, ha⟩ := hip
              subst hs
              refine ⟨[], ?_, ?_⟩
              · simp [resolveAllInjections]
              · rw [← ha]
                simp
            | some injs =>
              rw [hsi] at hip
              have hpr := parse_resolveAll load injs s sm args hip
              simpa [hsi] using hpr
          obtain ⟨rs, hr, hf⟩ := hinj
          exact ⟨sm, rs, hr, by rw [hb]; exact hf⟩

theorem claim_C3_witness :
    ∃ s₂ rs,
      resolveAllInjections loadTrivial sW (adW.base.serviceInjections.getD [])
        = some (s₂, .ok rs) ∧
      ((JSValue.vInstance 0, [JSValue.vStr "x"]) : JSValue × List JSValue).2
        = rs.filter truthy :=
  claim_C3 loadTrivial sW adW sWAfter (.vInstance 0, [.vStr "x"]) (by decide)

/-!  The post-build action loop: failure after earlier actions ran. -/

theorem runPostBuild_fail (cls : ServiceClass) (own : String) (id : Nat) :
    ∀ (done rest : List String) (bad : String) (s : SMState),
      (∀ m ∈ done, cls.methods.contains m = true) →
      cls.methods.contains bad = false →
      runPostBuildF cls own id s (done ++ bad :: rest) =
        ({ s with events := s.events ++ done.map (Event.actionRun id) },
          .error (.invalidPostBuildAction bad own)) := by
  intro done
  induction done with
  | nil =>
    intro rest bad s _ hbad
    rw [List.nil_append, runPostBuildF,
      if_neg (by rw [hbad]; exact Bool.false_ne_true)]
    simp
  | cons m ms ih =>
    intro rest bad s hdone hbad
    have hm : cls.methods.contains m = true := hdone m (by simp)
    rw [List.cons_append, runPostBuildF, if_pos hm]
    rw [ih rest bad _ (fun x hx => hdone x (by simp [hx])) hbad]
    simp

/-- C8: when the descriptor's post-build action list is `done ++ bad ::
rest` where every name in `done` is an invokable method of the built
instance's class and `bad` is not, `createInstance` fails with an Invalid
Post-Build Action error carrying both the offending method name and the
descriptor's class name; the failure is raised after the instance was
constructed (the `constructed` event is in the log) and the earlier
actions ran sequentially in declared order and are not rolled back (their
`actionRun` events remain in the log). -/
theorem claim_C8 (load : LoadFn) (s : SMState) (ad : AdaptedServiceDefinition)
    (cls : ServiceClass) (done rest : List String) (bad : String)
    (s₁ : SMState) (args : List JSValue)
    (hph : injectionsPhase load s ad = some (s₁, .ok args))
    (hmod : assocGet s₁.loadedServiceModules ad.serviceInstanceName
      = some (some cls))
    (hacts : ad.base.postBuildAsyncActions = some (done ++ bad :: rest))
    (hdone : ∀ m ∈ done, cls.methods.contains m = true)
    (hbad : cls.methods.contains bad = false) :
    createInstanceF load s ad =
      some ({ s₁ with
            nextId := s₁.nextId + 1,
            events := s₁.events ++ [.constructed cls.className args s₁.nextId]
              ++ done.map (Event.actionRun s₁.nextId) },
        .error (.invalidPostBuildAction bad ad.base.serviceClassName)) := by
  unfold createInstanceF
  rw [hph, Option.map_some']
  simp only [buildStep]
  rw [hmod]
  simp only [Option.some_inj, constructPhase]
  simp only [hacts]
  rw [runPostBuild_fail cls ad.base.serviceClassName s₁.nextId done rest bad _
    hdone hbad]
  simp [finishPhase, List.append_assoc]

theorem claim_C8_witness :
    createInstanceF loadTrivial sP adP =
      some ({ sP with
            nextId := sP.nextId + 1,
            events := sP.events ++ [.constructed clsP.className [] sP.nextId]
              ++ (["good"].map (Event.actionRun sP.nextId)) },
        .error (.invalidPostBuildAction "bad" adP.base.serviceClassName)) :=
  claim_C8 loadTrivial sP adP clsP ["good"] [] "bad" sP [] (by decide)
    (by decide) (by decide) (by decide) (by decide)

/-!  Error classification of `loadDependency` (C4). -/

/-- C4: the claim's Path Not Found case is too wide — an accessor that
resolves to a module object *without* a usable `default` export does not
fail: `loadDependency` on such a descriptor succeeds, stores the
module's `undefined` `default` export in the Loaded Module Cache, and
returns it, instead of failing with a Path Not Found error as claimed. -/
theorem claim_C4_counterexample :
    loadDependencyF s0C4 "A" =
      (⟨[defC4], [], [("A", none)], [], 0, [.accessorInvoked "A"]⟩,
        .ok none) := by
  decide

/-- C4 (amended): if there is no descriptor or no accessor, or the
accessor resolves to `null`/`undefined`, the load fails with Path Not
Found; if the accessor throws or rejects, it fails with Invalid Path; if
the accessor resolves to a module object, its `default` export — even
when missing, i.e. `undefined` — is stored in the Loaded Module Cache
under the name and returned successfully. -/
theorem claim_C4_amended :
    (∀ (s : SMState) (name : String),
      importServiceFromPath (getServiceDefinition s.defs name) = none →
      loadDependencyF s name = (s, .error (.pathNotFound name))) ∧
    (∀ (s : SMState) (name : String) (u : Unit),
      importServiceFromPath (getServiceDefinition s.defs name)
          = some (.error u) →
      loadDependencyF s name =
        ({ s with events := s.events ++ [.accessorInvoked name] },
          .error (.invalidPath name))) ∧
    (∀ (s : SMState) (name : String),
      importServiceFromPath (getServiceDefinition s.defs name)
          = some (.ok none) →
      loadDependencyF s name =
        ({ s with events := s.events ++ [.accessorInvoked name] },
          .error (.pathNotFound name))) ∧
    (∀ (s : SMState) (name : String) (m : JSModule),
      importServiceFromPath (getServiceDefinition s.defs name)
          = some (.ok (some m)) →
      loadDependencyF s name =
        ({ s with
            events := s.events ++ [.accessorInvoked name],
            loadedServiceModules :=
              assocSet s.loadedServiceModules name m.defaultExport },
          .ok m.defaultExport)) := by
  refine ⟨fun s name h => ?_, fun s name u h => ?_, fun s name h => ?_,
    fun s name m h => ?_⟩ <;> simp [loadDependencyF, h]

theorem claim_C4_witness :
    (loadDependencyF emptyS "Z" = (emptyS, .error (.pathNotFound "Z"))) ∧
    (loadDependencyF sThrow "T" =
      ({ sThrow with events := sThrow.events ++ [.accessorInvoked "T"] },
        .error (.invalidPath "T"))) ∧
    (loadDependencyF sNull "N" =
      ({ sNull with events := sNull.events ++ [.accessorInvoked "N"] },
        .error (.pathNotFound "N"))) ∧
    (loadDependencyF s0C5 "A" =
      ({ s0C5 with
          events := s0C5.events ++ [.accessorInvoked "A"],
          loadedServiceModules :=
            assocSet s0C5.loadedServiceModules "A" (some clsA) },
        .ok (some clsA))) :=
  ⟨claim_C4_amended.1 emptyS "Z" (by decide),
    claim_C4_amended.2.1 sThrow "T" () (by decide),
    claim_C4_amended.2.2.1 sNull "N" (by decide),
    claim_C4_amended.2.2.2 s0C5 "A" ⟨some clsA⟩ (by decide)⟩

/-!  Descriptor lookup (C6). -/

/-- C6: the claim — a descriptor with an explicit instance name matches
only by that name — is false on the code: lookup tests the instance name
with JavaScript truthiness, so a descriptor whose explicit instance name
is the empty string is matched by its *class* name.  Here lookup for
`"A"` returns a descriptor whose explicit instance name `""` is not
`"A"`, which the claim's matching rule rejects. -/
theorem claim_C6_counterexample :
    getServiceDefinition defsC6 "A" = some dC6 ∧
    claimMatchesC6 dC6 "A" = false := by
  exact ⟨by decide, by decide⟩

/-- C6 (amended): lookup scans the table in order and returns the first
descriptor whose explicit *non-empty* instance name equals the requested
name, or — when the instance name is absent or empty — whose class name
equals it; when no descriptor matches (and the singleton cache has no
truthy entry for the name), `loadService` fails with Definition Not Found
naming the requested name. -/
theorem claim_C6_amended :
    (∀ (defs : List ServiceDefinition) (name : String),
      getServiceDefinition defs name =
        defs.find? fun e => amendedMatches e name) ∧
    (∀ (fuel : Nat) (s : SMState) (name : String),
      truthy ((assocGet s.loadedServices name).getD .vUndefined) = false →
      getServiceDefinition s.defs name = none →
      loadServiceFuel (fuel + 1) s name =
        some (s, .error (.definitionNotFound name))) := by
  constructor
  · intro defs name
    unfold getServiceDefinition
    congr 1
    funext e
    unfold serviceDefinitionMatches amendedMatches
    cases e.serviceInstanceName with
    | none => rfl
    | some i => cases h : i == "" <;> simp [bne, h]
  · intro fuel s name hc hd
    rw [loadServiceFuel]
    simp [hc, hd]

theorem claim_C6_witness :
    loadServiceFuel 1 emptyS "X" =
      some (emptyS, .error (.definitionNotFound "X")) :=
  claim_C6_amended.2 0 emptyS "X" (by decide) (by decide)

/-!  The dependency-name walk (C7): the code's accumulator loop equals
the specification's depth-first pre-order flattening. -/

theorem unloadedLoop_eq_specLoop (defs : List ServiceDefinition)
    (loaded : List (String × Option ServiceClass))
    (rec₁ : Option ServiceDefinition → Option (List String))
    (g : ServiceInjection → Option (List String))
    (hg : ∀ inj : ServiceInjection,
      g inj = match inj.serviceInstanceName with
        | none => some []
        | some n =>
          if isModuleLoaded loaded n then some []
          else
            (rec₁ (getServiceDefinition defs n)).map fun sub => n :: sub) :
    ∀ injs : List ServiceInjection,
      unloadedLoop defs loaded rec₁ injs = specLoop g injs := by
  intro injs
  induction injs with
  | nil => rfl
  | cons inj rest ih =>
    obtain ⟨kn, kc⟩ := inj
    rw [specLoop, hg]
    cases kn with
    | none =>
      have hstep : unloadedLoop defs loaded rec₁ (⟨none, kc⟩ :: rest)
          = unloadedLoop defs loaded rec₁ rest := rfl
      rw [hstep, ih]
      simp only [Option.some_bind]
      cases hm : specLoop g rest with
      | none => rfl
      | some ls => simp
    | some n =>
      have hstep : unloadedLoop defs loaded rec₁ (⟨some n, kc⟩ :: rest)
          = if isModuleLoaded loaded n
            then unloadedLoop defs loaded rec₁ rest
            else (rec₁ (getServiceDefinition defs n)).bind fun sub =>
              (unloadedLoop defs loaded rec₁ rest).map fun tail =>
                n :: (sub ++ tail) := rfl
      rw [hstep]
      cases hl : isModuleLoaded loaded n with
      | true =>
        rw [if_pos rfl, ih]
        cases hm : specLoop g rest with
        | none => simp [hm, hl]
        | some ls => simp [hm, hl]
      | false =>
        rw [if_neg Bool.false_ne_true, ih]
        cases hc : rec₁ (getServiceDefinition defs n) with
        | none => simp [hc, hl]
        | some sub =>
          cases hm : specLoop g rest with
          | none => simp [hc, hm, hl]
          | some ls => simp [hc, hm, hl]

theorem unloaded_eq_spec :
    ∀ (fuel : Nat) (defs : List ServiceDefinition)
      (loaded : List (String × Option ServiceClass))
      (d? : Option ServiceDefinition),
      getUnloadedInjectionNamesF fuel defs loaded d? =
        specUnloadedNames fuel defs loaded d? := by
  intro fuel
  induction fuel with
  | zero => intro defs loaded d?; rfl
  | succ f ih =>
    intro defs loaded d?
    cases d? with
    | none => rfl
    | some d =>
      rw [getUnloadedInjectionNamesF, specUnloadedNames]
      cases d.serviceInjections with
      | none => rfl
      | some injs =>
        refine unloadedLoop_eq_specLoop defs loaded _ _ ?_ injs
        intro inj
        cases inj.serviceInstanceName with
        | none => rfl
        | some n =>
          simp only
          rw [ih]

/-- C7: the unloaded-dependency-name computation walks the injections in
order, skips custom injections (no `serviceInstanceName` key), prunes
references whose module is already loaded, and for each remaining
reference emits its name followed by the referenced descriptor's own
recursively computed names (depth-first pre-order), keeping duplicates —
for every fuel it coincides with the specification-worded flattening
`specUnloadedNames`; `resolve` then appends the descriptor's own instance
name as the last element and loads exactly that name sequence; and on a
table whose root references `B` twice the emitted sequence is
`["B", "B"]` (duplicates appended, no de-duplication). -/
theorem claim_C7 :
    (∀ (fuel : Nat) (defs : List ServiceDefinition)
      (loaded : List (String × Option ServiceClass))
      (d? : Option ServiceDefinition),
      getUnloadedInjectionNamesF fuel defs loaded d? =
        specUnloadedNames fuel defs loaded d?) ∧
    (∀ (fuel : Nat) (s : SMState) (ad : AdaptedServiceDefinition)
      (out : SMState × Except SMError Unit),
      resolveF fuel s ad = some out →
      ∃ names,
        getUnloadedInjectionNamesF fuel s.defs s.loadedServiceModules
          (some ad.base) = some names ∧
        out = loadDependenciesSeq s (names ++ [ad.serviceInstanceName])) ∧
    getUnloadedInjectionNamesF 2 dupDefs [] (some dupRoot)
      = some ["B", "B"] := by
  refine ⟨unloaded_eq_spec, ?_, by decide⟩
  intro fuel s ad out h
  unfold resolveF at h
  cases hu : getUnloadedInjectionNamesF fuel s.defs s.loadedServiceModules
      (some ad.base) with
  | none => rw [hu] at h; simp at h
  | some names =>
    rw [hu, Option.map_some'] at h
    exact ⟨names, rfl, (Option.some_inj.mp h).symm⟩

theorem claim_C7_witness :
    ∃ names,
      getUnloadedInjectionNamesF 2 s0C5.defs s0C5.loadedServiceModules
        (some adC5.base) = some names ∧
      rAfterC5 = loadDependenciesSeq s0C5 (names ++ [adC5.serviceInstanceName]) :=
  claim_C7.2.1 2 s0C5 adC5 rAfterC5 (by decide)

/-!  Termination of the walk on acyclic tables, divergence on a cyclic
chain (C10). -/

theorem acyclic_terminates (defs : List ServiceDefinition)
    (loaded : List (String × Option ServiceClass))
    (r : ServiceDefinition → Nat) (hR : RankOk defs loaded r) :
    ∀ (fuel : Nat) (d : ServiceDefinition), d ∈ defs → r d + 1 < fuel →
      (getUnloadedInjectionNamesF fuel defs loaded (some d)).isSome := by
  intro fuel
  induction fuel using Nat.strong_induction_on with
  | _ fuel ih =>
    intro d hd hr
    obtain ⟨f, rfl⟩ : ∃ f, fuel = f + 1 := ⟨fuel - 1, by omega⟩
    rw [getUnloadedInjectionNamesF]
    cases hsi : d.serviceInjections with
    | none => simp
    | some injs =>
      have hinjs : ∀ inj ∈ injs, injEdgeOk defs loaded r (r d) inj = true := by
        intro inj hi
        exact hR d hd inj (by rw [hsi]; exact hi)
      clear hsi
      show (unloadedLoop defs loaded (getUnloadedInjectionNamesF f defs loaded)
        injs).isSome = true
      induction injs with
      | nil => simp [unloadedLoop]
      | cons inj rest ihl =>
        have hrest : ∀ i ∈ rest, injEdgeOk defs loaded r (r d) i = true :=
          fun i hi => hinjs i (by simp [hi])
        obtain ⟨kn, kc⟩ := inj
        cases kn with
        | none =>
          have hstep : unloadedLoop defs loaded
              (getUnloadedInjectionNamesF f defs loaded) (⟨none, kc⟩ :: rest)
              = unloadedLoop defs loaded
                (getUnloadedInjectionNamesF f defs loaded) rest := rfl
          rw [hstep]
          exact ihl hrest
        | some n =>
          have hstep : unloadedLoop defs loaded
              (getUnloadedInjectionNamesF f defs loaded) (⟨some n, kc⟩ :: rest)
              = if isModuleLoaded loaded n
                then unloadedLoop defs loaded
                  (getUnloadedInjectionNamesF f defs loaded) rest
                else (getUnloadedInjectionNamesF f defs loaded
                    (getServiceDefinition defs n)).bind fun sub =>
                  (unloadedLoop defs loaded
                    (getUnloadedInjectionNamesF f defs loaded) rest).map
                    fun tail => n :: (sub ++ tail) := rfl
          rw [hstep]
          cases hl : isModuleLoaded loaded n with
          | true =>
            rw [if_pos rfl]
            exact ihl hrest
          | false =>
            rw [if_neg Bool.false_ne_true]
            have hedge := hinjs ⟨some n, kc⟩ (by simp)
            rw [injEdgeOk] at hedge
            simp only [hl, Bool.false_eq_true, if_false] at hedge
            obtain ⟨tail, htail⟩ := Option.isSome_iff_exists.mp (ihl hrest)
            cases hc : getServiceDefinition defs n with
            | none =>
              obtain ⟨f₁, rfl⟩ : ∃ f₁, f = f₁ + 1 := ⟨f - 1, by omega⟩
              rw [getUnloadedInjectionNamesF]
              simp [htail]
            | some c =>
              have hrc : r c < r d := by
                have hcd := hedge
                rw [hc] at hcd
                exact of_decide_eq_true (by simpa using hcd)
              have hcmem : c ∈ defs := List.mem_of_find?_eq_some hc
              have hsub := ih f (by omega) c hcmem (by omega)
              obtain ⟨sub, hsubeq⟩ := Option.isSome_iff_exists.mp hsub
              rw [hsubeq]
              simp [htail]

theorem cyc_diverges :
    ∀ fuel : Nat,
      getUnloadedInjectionNamesF fuel cycDefs [] (some cycA) = none ∧
      getUnloadedInjectionNamesF fuel cycDefs [] (some cycB) = none := by
  intro fuel
  induction fuel with
  | zero => exact ⟨rfl, rfl⟩
  | succ f ih =>
    have hBA : getServiceDefinition cycDefs "B" = some cycB := by decide
    have hAB : getServiceDefinition cycDefs "A" = some cycA := by decide
    constructor
    · rw [getUnloadedInjectionNamesF]
      have hstep : unloadedLoop cycDefs []
          (getUnloadedInjectionNamesF f cycDefs []) [⟨some "B", none⟩]
          = if isModuleLoaded [] "B"
            then unloadedLoop cycDefs []
              (getUnloadedInjectionNamesF f cycDefs []) []
            else (getUnloadedInjectionNamesF f cycDefs []
                (getServiceDefinition cycDefs "B")).bind fun sub =>
              (unloadedLoop cycDefs []
                (getUnloadedInjectionNamesF f cycDefs []) []).map
                fun tail => "B" :: (sub ++ tail) := rfl
      show unloadedLoop cycDefs [] (getUnloadedInjectionNamesF f cycDefs [])
          [⟨some "B", none⟩] = none
      rw [hstep, if_neg (by decide), hBA, ih.2]
      rfl
    · rw [getUnloadedInjectionNamesF]
      have hstep : unloadedLoop cycDefs []
          (getUnloadedInjectionNamesF f cycDefs []) [⟨some "A", none⟩]
          = if isModuleLoaded [] "A"
            then unloadedLoop cycDefs []
              (getUnloadedInjectionNamesF f cycDefs []) []
            else (getUnloadedInjectionNamesF f cycDefs []
                (getServiceDefinition cycDefs "A")).bind fun sub =>
              (unloadedLoop cycDefs []
                (getUnloadedInjectionNamesF f cycDefs []) []).map
                fun tail => "A" :: (sub ++ tail) := rfl
      show unloadedLoop cycDefs [] (getUnloadedInjectionNamesF f cycDefs [])
          [⟨some "A", none⟩] = none
      rw [hstep, if_neg (by decide), hAB, ih.1]
      rfl

/-- C10: the dependency-name computation has no cycle detection.  For
every descriptor table whose service-reference graph restricted to
not-yet-loaded modules is acyclic (witnessed by a strictly decreasing
rank, `RankOk`), `getUnloadedInjectionNames` terminates: any fuel above
the rank of the starting descriptor yields a result.  For the mutually
referential chain `A → B → A`, the computation never terminates: it
exhausts every fuel. -/
theorem claim_C10 :
    (∀ (defs : List ServiceDefinition)
      (loaded : List (String × Option ServiceClass))
      (r : ServiceDefinition → Nat),
      RankOk defs loaded r →
      ∀ d ∈ defs, ∀ fuel : Nat, r d + 1 < fuel →
        (getUnloadedInjectionNamesF fuel defs loaded (some d)).isSome) ∧
    (∀ fuel : Nat,
      getUnloadedInjectionNamesF fuel cycDefs [] (some cycA) = none) :=
  ⟨fun defs loaded r hR d hd fuel hf =>
      acyclic_terminates defs loaded r hR fuel d hd hf,
    fun fuel => (cyc_diverges fuel).1⟩

theorem claim_C10_witness :
    ((getUnloadedInjectionNamesF 4 dupDefs [] (some dupRoot)).isSome
      = true) ∧
    getUnloadedInjectionNamesF 7 cycDefs [] (some cycA) = none :=
  ⟨claim_C10.1 dupDefs [] dupRank (by decide) dupRoot (by decide) 4
      (by decide),
    claim_C10.2 7⟩

/-!  Descriptor-table preservation (C5): no phase of a load call changes
the table except the one in-place instance-name defaulting. -/

theorem defs_loadDependencyF (s : SMState) (n : String) :
    (loadDependencyF s n).1.defs = s.defs := by
  unfold loadDependencyF
  cases hx : importServiceFromPath (getServiceDefinition s.defs n) with
  | none => rfl
  | some pr =>
    cases pr with
    | error u => rfl
    | ok m? =>
      cases m? with
      | none => rfl
      | some m => rfl

theorem defs_loadDependenciesGo (names : List String) :
    ∀ s : SMState, (loadDependenciesGo s names).1.defs = s.defs := by
  induction names with
  | nil => intro s; rfl
  | cons n rest ih =>
    intro s
    rw [loadDependenciesGo]
    cases hx : assocGet s.serviceModulePromises n with
    | some r =>
      cases hgo : loadDependenciesGo s rest with
      | mk s₂ rs =>
        have h := ih s
        rw [hgo] at h
        simpa using h
    | none =>
      cases hld : loadDependencyF s n with
      | mk s₁ r =>
        have h₁ := defs_loadDependencyF s n
        rw [hld] at h₁
        cases hgo : loadDependenciesGo
            { s₁ with
              serviceModulePromises :=
                assocSet s₁.serviceModulePromises n r } rest with
        | mk s₂ rs =>
          have h₂ := ih { s₁ with
            serviceModulePromises := assocSet s₁.serviceModulePromises n r }
          rw [hgo] at h₂
          show (match loadDependenciesGo
              { s₁ with
                serviceModulePromises :=
                  assocSet s₁.serviceModulePromises n r } rest with
            | (s₂, rs) => (s₂, r :: rs)).1.defs = s.defs
          rw [hgo]
          simpa using h₂.trans (by simpa using h₁)

theorem defs_loadDependenciesSeq (s : SMState) (names : List String) :
    (loadDependenciesSeq s names).1.defs = s.defs := by
  unfold loadDependenciesSeq
  cases hgo : loadDependenciesGo s names with
  | mk s₁ rs =>
    have h := defs_loadDependenciesGo names s
    rw [hgo] at h
    simpa using h

theorem defs_resolveF (fuel : Nat) (s : SMState)
    (ad : AdaptedServiceDefinition) (out : SMState × Except SMError Unit)
    (h : resolveF fuel s ad = some out) : out.1.defs = s.defs := by
  unfold resolveF at h
  cases hu : getUnloadedInjectionNamesF fuel s.defs s.loadedServiceModules
      (some ad.base) with
  | none => rw [hu] at h; simp at h
  | some names =>
    rw [hu, Option.map_some', Option.some_inj] at h
    rw [← h]
    exact defs_loadDependenciesSeq s (names ++ [ad.serviceInstanceName])

theorem defs_runPostBuildF (cls : ServiceClass) (own : String) (id : Nat) :
    ∀ (acts : List String) (s : SMState),
      (runPostBuildF cls own id s acts).1.defs = s.defs := by
  intro acts
  induction acts with
  | nil => intro s; rfl
  | cons m rest ih =>
    intro s
    rw [runPostBuildF]
    by_cases hm : cls.methods.contains m = true
    · rw [if_pos hm]
      simpa using ih _
    · rw [if_neg hm]

theorem defs_finishPhase (ad : AdaptedServiceDefinition) (id : Nat)
    (args : List JSValue) (p : SMState × Except SMError Unit) :
    (finishPhase ad id args p).1.defs = p.1.defs := by
  obtain ⟨s₃, pr⟩ := p
  cases pr <;> rfl

theorem defs_constructPhase (s₁ : SMState) (ad : AdaptedServiceDefinition)
    (cls : ServiceClass) (args : List JSValue) :
    (constructPhase s₁ ad cls args).1.defs = s₁.defs := by
  cases hacts : ad.base.postBuildAsyncActions with
  | none =>
    simp only [constructPhase, hacts]
    rw [defs_finishPhase]
  | some acts =>
    simp only [constructPhase, hacts]
    rw [defs_finishPhase, defs_runPostBuildF]

theorem defs_buildStep (ad : AdaptedServiceDefinition)
    (p : SMState × Except SMError (List JSValue)) :
    (buildStep ad p).1.defs = p.1.defs := by
  obtain ⟨s₁, r⟩ := p
  cases r with
  | error e => rfl
  | ok args =>
    simp only [buildStep]
    cases hmod : assocGet s₁.loadedServiceModules ad.serviceInstanceName with
    | none => rfl
    | some oc =>
      cases oc with
      | none => rfl
      | some cls => simpa using defs_constructPhase s₁ ad cls args

theorem defs_pushIf (v : JSValue)
    (q : SMState × Except SMError (List JSValue)) :
    (pushIf v q).1 = q.1 := by
  obtain ⟨s₂, r₂⟩ := q
  cases r₂ <;> rfl

theorem defs_cacheStep (ad : AdaptedServiceDefinition)
    (q : SMState × Except SMError (JSValue × List JSValue)) :
    (cacheStep ad q).1.defs = q.1.defs := by
  obtain ⟨s₃, r⟩ := q
  cases r <;> rfl

theorem defStep_trans {a b c : ServiceDefinition}
    (h₁ : defStep a b) (h₂ : defStep b c) : defStep a c := by
  rcases h₁ with rfl | ⟨ha, rfl⟩
  · exact h₂
  · rcases h₂ with rfl | ⟨hb, hc⟩
    · exact Or.inr ⟨ha, rfl⟩
    · simp at hb

theorem defsRel_refl (l : List ServiceDefinition) : DefsRel l l := by
  induction l with
  | nil => exact List.Forall₂.nil
  | cons d t ih => exact List.Forall₂.cons (Or.inl rfl) ih

theorem defsRel_trans {l₁ l₂ l₃ : List ServiceDefinition}
    (h₁ : DefsRel l₁ l₂) (h₂ : DefsRel l₂ l₃) : DefsRel l₁ l₃ := by
  induction h₁ generalizing l₃ with
  | nil => cases h₂; exact .nil
  | cons hd ht ih =>
    cases h₂ with
    | cons hd₂ ht₂ => exact .cons (defStep_trans hd hd₂) (ih ht₂)

theorem defsRel_set (l : List ServiceDefinition) (p : ServiceDefinition → Bool)
    (d d₁ : ServiceDefinition) (hf : l.find? p = some d)
    (hstep : defStep d d₁) :
    DefsRel l (l.set (l.findIdx p) d₁) := by
  induction l with
  | nil => simp at hf
  | cons a t ih =>
    by_cases hpa : p a = true
    · rw [List.find?_cons_of_pos _ hpa] at hf
      rw [Option.some_inj] at hf
      subst hf
      rw [List.findIdx_cons, hpa, cond_true]
      exact List.Forall₂.cons hstep (defsRel_refl t)
    · have hpa₁ : p a = false := by simpa using hpa
      rw [List.find?_cons_of_neg _ hpa] at hf
      rw [List.findIdx_cons, hpa₁, cond_false]
      rw [List.set_cons_succ]
      exact List.Forall₂.cons (Or.inl rfl) (ih hf)

theorem defsRel_parse (load : LoadFn)
    (hload : ∀ (s : SMState) (n : String)
      (out : SMState × Except SMError JSValue),
      load s n = some out → DefsRel s.defs out.1.defs) :
    ∀ (injs : List ServiceInjection) (s : SMState)
      (out : SMState × Except SMError (List JSValue)),
      parseInjectionsF load s injs = some out →
      DefsRel s.defs out.1.defs := by
  intro injs
  induction injs with
  | nil =>
    intro s out h
    have h₁ : some ((s, Except.ok []) :
        SMState × Except SMError (List JSValue)) = some out := h
    rw [Option.some_inj] at h₁
    rw [← h₁]
    exact defsRel_refl s.defs
  | cons inj rest ih =>
    intro s out h
    obtain ⟨kn, kc⟩ := inj
    cases kn with
    | some n =>
      have hstep : parseInjectionsF load s (⟨some n, kc⟩ :: rest)
          = (load s n).bind (exceptStep fun s₁ v =>
              (parseInjectionsF load s₁ rest).map (pushIf v)) := rfl
      rw [hstep] at h
      cases hl : load s n with
      | none => rw [hl] at h; simp at h
      | some p =>
        obtain ⟨sm, r⟩ := p
        rw [hl, Option.some_bind] at h
        have hrel₁ : DefsRel s.defs sm.defs := hload s n (sm, r) hl
        cases r with
        | error e =>
          simp only [exceptStep] at h
          rw [Option.some_inj] at h
          rw [← h]
          exact hrel₁
        | ok v =>
          simp only [exceptStep] at h
          cases hp : parseInjectionsF load sm rest with
          | none => rw [hp] at h; simp at h
          | some q =>
            rw [hp, Option.map_some', Option.some_inj] at h
            have hrel₂ := ih sm q hp
            rw [← h]
            have hq : (pushIf v q).1 = q.1 := defs_pushIf v q
            rw [hq]
            exact defsRel_trans hrel₁ hrel₂
    | none =>
      cases kc with
      | some v =>
        have hstep : parseInjectionsF load s (⟨none, some v⟩ :: rest)
            = (parseInjectionsF load s rest).map (pushIf v) := rfl
        rw [hstep] at h
        cases hp : parseInjectionsF load s rest with
        | none => rw [hp] at h; simp at h
        | some q =>
          rw [hp, Option.map_some', Option.some_inj] at h
          have hrel := ih s q hp
          rw [← h, defs_pushIf v q]
          exact hrel
      | none =>
        have hstep : parseInjectionsF load s (⟨none, none⟩ :: rest)
            = some (s, .error (.invalidInjection ⟨none, none⟩)) := rfl
        rw [hstep, Option.some_inj] at h
        rw [← h]
        exact defsRel_refl s.defs

theorem defsRel_injectionsPhase (load : LoadFn)
    (hload : ∀ (s : SMState) (n : String)
      (out : SMState × Except SMError JSValue),
      load s n = some out → DefsRel s.defs out.1.defs)
    (s : SMState) (ad : AdaptedServiceDefinition)
    (out : SMState × Except SMError (List JSValue))
    (h : injectionsPhase load s ad = some out) :
    DefsRel s.defs out.1.defs := by
  unfold injectionsPhase at h
  cases hsi : ad.base.serviceInjections with
  | none =>
    rw [hsi] at h
    have h₁ : some ((s, Except.ok []) :
        SMState × Except SMError (List JSValue)) = some out := h
    rw [Option.some_inj] at h₁
    rw [← h₁]
    exact defsRel_refl s.defs
  | some injs =>
    rw [hsi] at h
    exact defsRel_parse load hload injs s out h

theorem defsRel_createInstanceF (load : LoadFn)
    (hload : ∀ (s : SMState) (n : String)
      (out : SMState × Except SMError JSValue),
      load s n = some out → DefsRel s.defs out.1.defs)
    (s : SMState) (ad : AdaptedServiceDefinition)
    (out : SMState × Except SMError (JSValue × List JSValue))
    (h : createInstanceF load s ad = some out) :
    DefsRel s.defs out.1.defs := by
  unfold createInstanceF at h
  cases hip : injectionsPhase load s ad with
  | none => rw [hip] at h; simp at h
  | some p =>
    rw [hip, Option.map_some', Option.some_inj] at h
    have h₁ := defsRel_injectionsPhase load hload s ad p hip
    rw [← h, defs_buildStep ad p]
    exact h₁

theorem defsRel_getInstanceInternalF (load : LoadFn)
    (hload : ∀ (s : SMState) (n : String)
      (out : SMState × Except SMError JSValue),
      load s n = some out → DefsRel s.defs out.1.defs)
    (fuel : Nat) (s : SMState) (ad : AdaptedServiceDefinition)
    (out : SMState × Except SMError JSValue)
    (h : getInstanceInternalF load fuel s ad = some out) :
    DefsRel s.defs out.1.defs := by
  unfold getInstanceInternalF at h
  by_cases hml : isModuleLoaded s.loadedServiceModules ad.serviceInstanceName
      = true
  · rw [if_pos hml, Option.some_bind] at h
    simp only [exceptStep] at h
    cases hci : createInstanceF load s ad with
    | none => rw [hci] at h; simp at h
    | some q =>
      rw [hci, Option.map_some', Option.some_inj] at h
      have h₁ := defsRel_createInstanceF load hload s ad q hci
      rw [← h, defs_cacheStep ad q]
      exact h₁
  · rw [if_neg hml] at h
    cases hres : resolveF fuel s ad with
    | none => rw [hres] at h; simp at h
    | some pr =>
      obtain ⟨s₂, rr⟩ := pr
      rw [hres, Option.some_bind] at h
      have hd₂ : s₂.defs = s.defs := by
        have h₀ := defs_resolveF fuel s ad (s₂, rr) hres
        simpa using h₀
      cases rr with
      | error e =>
        simp only [exceptStep] at h
        rw [Option.some_inj] at h
        rw [← h]
        show DefsRel s.defs s₂.defs
        rw [hd₂]
        exact defsRel_refl s.defs
      | ok u =>
        simp only [exceptStep] at h
        cases hci : createInstanceF load s₂ ad with
        | none => rw [hci] at h; simp at h
        | some q =>
          rw [hci, Option.map_some', Option.some_inj] at h
          have h₁ := defsRel_createInstanceF load hload s₂ ad q hci
          rw [hd₂] at h₁
          rw [← h, defs_cacheStep ad q]
          exact h₁

/-- C5 (amended): a load call leaves every descriptor in the table
unchanged *except* that a descriptor resolved while lacking an explicit
`serviceInstanceName` gets its class name written into that field in
place; no other field of any descriptor is ever modified (`defStep`
enumerates exactly these two possibilities per descriptor). -/
theorem claim_C5_amended :
    ∀ (fuel : Nat) (s : SMState) (name : String)
      (out : SMState × Except SMError JSValue),
      loadServiceFuel fuel s name = some out →
      DefsRel s.defs out.1.defs := by
  intro fuel
  induction fuel with
  | zero => intro s name out h; simp [loadServiceFuel] at h
  | succ f ih =>
    intro s name out h
    simp only [loadServiceFuel] at h
    by_cases hc : truthy ((assocGet s.loadedServices name).getD .vUndefined)
        = true
    · rw [if_pos hc, Option.some_inj] at h
      rw [← h]
      exact defsRel_refl s.defs
    · rw [if_neg hc] at h
      cases hgd : getServiceDefinition s.defs name with
      | none =>
        rw [hgd] at h
        have h₁ : some ((s, Except.error (.definitionNotFound name)) :
            SMState × Except SMError JSValue) = some out := h
        rw [Option.some_inj] at h₁
        rw [← h₁]
        exact defsRel_refl s.defs
      | some d =>
        rw [hgd] at h
        have h₁ : getInstanceInternalF (loadServiceFuel f) f
            { s with
              defs := s.defs.set
                (s.defs.findIdx fun e => serviceDefinitionMatches e name)
                (adaptDef d) }
            ⟨adaptDef d, (adaptDef d).serviceInstanceName.getD ""⟩
            = some out := h
        have hrel₁ : DefsRel s.defs
            (s.defs.set
              (s.defs.findIdx fun e => serviceDefinitionMatches e name)
              (adaptDef d)) := by
          refine defsRel_set s.defs _ d (adaptDef d) hgd ?_
          unfold adaptDef
          cases hdn : d.serviceInstanceName with
          | some i => exact Or.inl rfl
          | none => exact Or.inr ⟨hdn, rfl⟩
        have hrel₂ := defsRel_getInstanceInternalF (loadServiceFuel f)
          (fun s n o hh => ih s n o hh) f _ _ out h₁
        exact defsRel_trans hrel₁ (by simpa using hrel₂)

theorem claim_C5_witness :
    loadServiceFuel 2 s0C5 "A" = some (sAfterC5, .ok (.vInstance 0)) ∧
    DefsRel s0C5.defs sAfterC5.defs :=
  ⟨by decide, by
    have h : loadServiceFuel 2 s0C5 "A" = some (sAfterC5, .ok (.vInstance 0)) :=
      by decide
    simpa using claim_C5_amended 2 s0C5 "A" (sAfterC5, .ok (.vInstance 0)) h⟩

/-- C5: the claim — no container operation modifies any field of any
descriptor, every descriptor unchanged after any sequence of load calls —
is false on the code: a successful `loadService "A"` on a table whose
only descriptor lacks an explicit instance name leaves the table holding
the *adapted* descriptor (its `serviceInstanceName` now `some "A"`),
which differs from the descriptor originally supplied. -/
theorem claim_C5_counterexample :
    (loadServiceFuel 2 s0C5 "A").map (fun p => p.1.defs) = some [d1C5] ∧
    d1C5 ≠ defC5 := by
  exact ⟨by decide, by decide⟩

/-!  The invalid-injection characterization (C9): every
`invalidInjection` error the interpreter can produce carries an injection
spec with neither key. -/

theorem resOk_loadDependencyF (s : SMState) (n : String) :
    ResOk (loadDependencyF s n).2 := by
  unfold loadDependencyF
  cases hx : importServiceFromPath (getServiceDefinition s.defs n) with
  | none => intro i hi; exact SMError.noConfusion hi
  | some pr =>
    cases pr with
    | error u => intro i hi; exact SMError.noConfusion hi
    | ok m? =>
      cases m? with
      | none => intro i hi; exact SMError.noConfusion hi
      | some m => trivial

theorem promises_loadDependencyF (s : SMState) (n : String) :
    (loadDependencyF s n).1.serviceModulePromises
      = s.serviceModulePromises := by
  unfold loadDependencyF
  cases hx : importServiceFromPath (getServiceDefinition s.defs n) with
  | none => rfl
  | some pr =>
    cases pr with
    | error u => rfl
    | ok m? =>
      cases m? with
      | none => rfl
      | some m => rfl

theorem mem_assocSet {α : Type} (l : List (String × α)) (k : String) (v : α) :
    ∀ p ∈ assocSet l k v, p = (k, v) ∨ p ∈ l := by
  induction l with
  | nil =>
    intro p hp
    simp [assocSet] at hp
    exact Or.inl hp
  | cons a t ih =>
    obtain ⟨k₁, v₁⟩ := a
    intro p hp
    have hstep : assocSet ((k₁, v₁) :: t) k v
        = if k₁ == k then (k, v) :: t
          else (k₁, v₁) :: assocSet t k v := rfl
    rw [hstep] at hp
    by_cases hk : (k₁ == k) = true
    · rw [if_pos hk] at hp
      rcases List.mem_cons.mp hp with rfl | ht
      · exact Or.inl rfl
      · exact Or.inr (List.mem_cons_of_mem _ ht)
    · rw [if_neg hk] at hp
      rcases List.mem_cons.mp hp with rfl | ht
      · exact Or.inr (List.mem_cons_self _ _)
      · rcases ih p ht with h | h
        · exact Or.inl h
        · exact Or.inr (List.mem_cons_of_mem _ h)

theorem mem_assocErase {α : Type} (l : List (String × α)) (k : String) :
    ∀ p ∈ assocErase l k, p ∈ l := by
  induction l with
  | nil => intro p hp; simp [assocErase] at hp
  | cons a t ih =>
    obtain ⟨k₁, v₁⟩ := a
    intro p hp
    have hstep : assocErase ((k₁, v₁) :: t) k
        = if k₁ == k then t else (k₁, v₁) :: assocErase t k := rfl
    rw [hstep] at hp
    by_cases hk : (k₁ == k) = true
    · rw [if_pos hk] at hp
      exact List.mem_cons_of_mem _ hp
    · rw [if_neg hk] at hp
      rcases List.mem_cons.mp hp with rfl | ht
      · exact List.mem_cons_self _ _
      · exact List.mem_cons_of_mem _ (ih p ht)

theorem resOk_firstError {α : Type} :
    ∀ rs : List (Except SMError α),
      (∀ x ∈ rs, ResOk x) → ResOk (firstError rs) := by
  intro rs
  induction rs with
  | nil => intro _; trivial
  | cons x rest ih =>
    intro hall
    cases x with
    | error e => exact hall (Except.error e) (List.mem_cons_self _ _)
    | ok a => exact ih fun y hy => hall y (List.mem_cons_of_mem _ hy)

theorem promOk_loadDependenciesGo :
    ∀ (names : List String) (s : SMState), PromOk s →
      PromOk (loadDependenciesGo s names).1 ∧
        ∀ x ∈ (loadDependenciesGo s names).2, ResOk x := by
  intro names
  induction names with
  | nil =>
    intro s h
    exact ⟨h, by intro x hx; simp [loadDependenciesGo] at hx⟩
  | cons n rest ih =>
    intro s h
    cases hx : assocGet s.serviceModulePromises n with
    | some r =>
      have hr : ResOk r := by
        unfold assocGet at hx
        cases hf : s.serviceModulePromises.find? (fun p => p.1 == n) with
        | none => rw [hf] at hx; simp at hx
        | some pr =>
          rw [hf, Option.map_some', Option.some_inj] at hx
          have hm := List.mem_of_find?_eq_some hf
          exact hx ▸ h pr hm
      cases hgo : loadDependenciesGo s rest with
      | mk s₂ rs =>
        obtain ⟨ih₁, ih₂⟩ := ih s h
        rw [hgo] at ih₁ ih₂
        have hstep : loadDependenciesGo s (n :: rest)
            = (s₂, r :: rs) := by
          rw [loadDependenciesGo, hx, hgo]
        rw [hstep]
        refine ⟨by simpa using ih₁, ?_⟩
        intro x hxm
        rcases List.mem_cons.mp hxm with rfl | ht
        · exact hr
        · exact ih₂ x ht
    | none =>
      cases hld : loadDependencyF s n with
      | mk s₁ r =>
        have hr : ResOk r := by
          have h₀ := resOk_loadDependencyF s n
          rw [hld] at h₀
          exact h₀
        have hp₁ : PromOk s₁ := by
          have h₀ := promises_loadDependencyF s n
          rw [hld] at h₀
          intro p hp
          refine h p ?_
          rw [← h₀]
          exact hp
        have hp₂ : PromOk { s₁ with
            serviceModulePromises := assocSet s₁.serviceModulePromises n r } := by
          intro p hp
          rcases mem_assocSet s₁.serviceModulePromises n r p hp with rfl | hmem
          · exact hr
          · exact hp₁ p hmem
        cases hgo : loadDependenciesGo { s₁ with
            serviceModulePromises :=
              assocSet s₁.serviceModulePromises n r } rest with
        | mk s₂ rs =>
          obtain ⟨ih₁, ih₂⟩ := ih _ hp₂
          rw [hgo] at ih₁ ih₂
          have hstep : loadDependenciesGo s (n :: rest)
              = (s₂, r :: rs) := by
            rw [loadDependenciesGo, hx, hld]
            show (match loadDependenciesGo
                { s₁ with
                  serviceModulePromises :=
                    assocSet s₁.serviceModulePromises n r } rest with
              | (s₂, rs) => (s₂, r :: rs)) = (s₂, r :: rs)
            rw [hgo]
          rw [hstep]
          refine ⟨by simpa using ih₁, ?_⟩
          intro x hxm
          rcases List.mem_cons.mp hxm with rfl | ht
          · exact hr
          · exact ih₂ x ht

theorem c9_loadDependenciesSeq (s : SMState) (names : List String)
    (h : PromOk s) :
    PromOk (loadDependenciesSeq s names).1 ∧
      ResOk (loadDependenciesSeq s names).2 := by
  unfold loadDependenciesSeq
  cases hgo : loadDependenciesGo s names with
  | mk s₁ rs =>
    obtain ⟨h₁, h₂⟩ := promOk_loadDependenciesGo names s h
    rw [hgo] at h₁ h₂
    exact ⟨h₁, resOk_firstError rs h₂⟩

theorem c9_resolveF (fuel : Nat) (s : SMState)
    (ad : AdaptedServiceDefinition) (out : SMState × Except SMError Unit)
    (hres : resolveF fuel s ad = some out) (h : PromOk s) :
    PromOk out.1 ∧ ResOk out.2 := by
  unfold resolveF at hres
  cases hu : getUnloadedInjectionNamesF fuel s.defs s.loadedServiceModules
      (some ad.base) with
  | none => rw [hu] at hres; simp at hres
  | some names =>
    rw [hu, Option.map_some', Option.some_inj] at hres
    rw [← hres]
    exact c9_loadDependenciesSeq s (names ++ [ad.serviceInstanceName]) h

theorem promises_runPostBuildF (cls : ServiceClass) (own : String)
    (id : Nat) :
    ∀ (acts : List String) (s : SMState),
      (runPostBuildF cls own id s acts).1.serviceModulePromises
        = s.serviceModulePromises := by
  intro acts
  induction acts with
  | nil => intro s; rfl
  | cons m rest ih =>
    intro s
    rw [runPostBuildF]
    by_cases hm : cls.methods.contains m = true
    · rw [if_pos hm]
      simpa using ih _
    · rw [if_neg hm]

theorem resOk_runPostBuildF (cls : ServiceClass) (own : String) (id : Nat) :
    ∀ (acts : List String) (s : SMState),
      ResOk (runPostBuildF cls own id s acts).2 := by
  intro acts
  induction acts with
  | nil => intro s; trivial
  | cons m rest ih =>
    intro s
    rw [runPostBuildF]
    by_cases hm : cls.methods.contains m = true
    · rw [if_pos hm]
      exact ih _
    · rw [if_neg hm]
      intro i hi
      exact SMError.noConfusion hi

theorem c9_finishPhase (ad : AdaptedServiceDefinition) (id : Nat)
    (args : List JSValue) (p : SMState × Except SMError Unit)
    (hres : ResOk p.2) (hprom : PromOk p.1) :
    PromOk (finishPhase ad id args p).1 ∧
      ResOk (finishPhase ad id args p).2 := by
  obtain ⟨s₄, pr⟩ := p
  cases pr with
  | error e => exact ⟨hprom, hres⟩
  | ok u =>
    refine ⟨?_, trivial⟩
    intro q hq
    exact hprom q (mem_assocErase s₄.serviceModulePromises
      ad.serviceInstanceName q hq)

theorem c9_constructPhase (s₁ : SMState) (ad : AdaptedServiceDefinition)
    (cls : ServiceClass) (args : List JSValue) (hprom : PromOk s₁) :
    PromOk (constructPhase s₁ ad cls args).1 ∧
      ResOk (constructPhase s₁ ad cls args).2 := by
  cases hacts : ad.base.postBuildAsyncActions with
  | none =>
    simp only [constructPhase, hacts]
    exact c9_finishPhase ad s₁.nextId args _ trivial hprom
  | some acts =>
    simp only [constructPhase, hacts]
    refine c9_finishPhase ad s₁.nextId args _ ?_ ?_
    · exact resOk_runPostBuildF cls ad.base.serviceClassName s₁.nextId acts _
    · intro p hp
      rw [promises_runPostBuildF] at hp
      exact hprom p hp

theorem c9_buildStep (ad : AdaptedServiceDefinition)
    (p : SMState × Except SMError (List JSValue))
    (hres : ResOk p.2) (hprom : PromOk p.1) :
    PromOk (buildStep ad p).1 ∧ ResOk (buildStep ad p).2 := by
  obtain ⟨s₁, r⟩ := p
  cases r with
  | error e => exact ⟨hprom, hres⟩
  | ok args =>
    simp only [buildStep]
    cases hmod : assocGet s₁.loadedServiceModules ad.serviceInstanceName with
    | none => exact ⟨hprom, fun i hi => SMError.noConfusion hi⟩
    | some oc =>
      cases oc with
      | none => exact ⟨hprom, fun i hi => SMError.noConfusion hi⟩
      | some cls => exact c9_constructPhase s₁ ad cls args hprom

theorem c9_pushIf (v : JSValue) (q : SMState × Except SMError (List JSValue))
    (hres : ResOk q.2) : ResOk (pushIf v q).2 := by
  obtain ⟨s₂, r₂⟩ := q
  cases r₂ with
  | error e => exact hres
  | ok vs => trivial

theorem c9_parse (load : LoadFn)
    (hload : ∀ (s : SMState) (n : String)
      (out : SMState × Except SMError JSValue),
      load s n = some out → PromOk s → PromOk out.1 ∧ ResOk out.2) :
    ∀ (injs : List ServiceInjection) (s : SMState)
      (out : SMState × Except SMError (List JSValue)),
      parseInjectionsF load s injs = some out → PromOk s →
      PromOk out.1 ∧ ResOk out.2 := by
  intro injs
  induction injs with
  | nil =>
    intro s out h hp
    have h₁ : some ((s, Except.ok []) :
        SMState × Except SMError (List JSValue)) = some out := h
    rw [Option.some_inj] at h₁
    rw [← h₁]
    exact ⟨hp, trivial⟩
  | cons inj rest ih =>
    intro s out h hp
    obtain ⟨kn, kc⟩ := inj
    cases kn with
    | some n =>
      have hstep : parseInjectionsF load s (⟨some n, kc⟩ :: rest)
          = (load s n).bind (exceptStep fun s₁ v =>
              (parseInjectionsF load s₁ rest).map (pushIf v)) := rfl
      rw [hstep] at h
      cases hl : load s n with
      | none => rw [hl] at h; simp at h
      | some p =>
        obtain ⟨sm, r⟩ := p
        rw [hl, Option.some_bind] at h
        obtain ⟨hp₁, hr₁⟩ := hload s n (sm, r) hl hp
        cases r with
        | error e =>
          simp only [exceptStep] at h
          rw [Option.some_inj] at h
          rw [← h]
          exact ⟨hp₁, hr₁⟩
        | ok v =>
          simp only [exceptStep] at h
          cases hpr : parseInjectionsF load sm rest with
          | none => rw [hpr] at h; simp at h
          | some q =>
            rw [hpr, Option.map_some', Option.some_inj] at h
            obtain ⟨hp₂, hr₂⟩ := ih sm q hpr hp₁
            rw [← h]
            constructor
            · have hq : (pushIf v q).1 = q.1 := defs_pushIf v q
              rw [hq]
              exact hp₂
            · exact c9_pushIf v q hr₂
    | none =>
      cases kc with
      | some v =>
        have hstep : parseInjectionsF load s (⟨none, some v⟩ :: rest)
            = (parseInjectionsF load s rest).map (pushIf v) := rfl
        rw [hstep] at h
        cases hpr : parseInjectionsF load s rest with
        | none => rw [hpr] at h; simp at h
        | some q =>
          rw [hpr, Option.map_some', Option.some_inj] at h
          obtain ⟨hp₂, hr₂⟩ := ih s q hpr hp
          rw [← h]
          constructor
          · rw [defs_pushIf v q]
            exact hp₂
          · exact c9_pushIf v q hr₂
      | none =>
        have hstep : parseInjectionsF load s (⟨none, none⟩ :: rest)
            = some (s, .error (.invalidInjection ⟨none, none⟩)) := rfl
        rw [hstep, Option.some_inj] at h
        rw [← h]
        refine ⟨hp, ?_⟩
        intro i hi
        cases hi
        exact ⟨rfl, rfl⟩

theorem c9_injectionsPhase (load : LoadFn)
    (hload : ∀ (s : SMState) (n : String)
      (out : SMState × Except SMError JSValue),
      load s n = some out → PromOk s → PromOk out.1 ∧ ResOk out.2)
    (s : SMState) (ad : AdaptedServiceDefinition)
    (out : SMState × Except SMError (List JSValue))
    (h : injectionsPhase load s ad = some out) (hp : PromOk s) :
    PromOk out.1 ∧ ResOk out.2 := by
  unfold injectionsPhase at h
  cases hsi : ad.base.serviceInjections with
  | none =>
    rw [hsi] at h
    have h₁ : some ((s, Except.ok []) :
        SMState × Except SMError (List JSValue)) = some out := h
    rw [Option.some_inj] at h₁
    rw [← h₁]
    exact ⟨hp, trivial⟩
  | some injs =>
    rw [hsi] at h
    exact c9_parse load hload injs s out h hp

theorem c9_cacheStep (ad : AdaptedServiceDefinition)
    (q : SMState × Except SMError (JSValue × List JSValue))
    (hres : ResOk q.2) (hprom : PromOk q.1) :
    PromOk (cacheStep ad q).1 ∧ ResOk (cacheStep ad q).2 := by
  obtain ⟨s₃, r⟩ := q
  cases r with
  | error e => exact ⟨hprom, hres⟩
  | ok b => exact ⟨hprom, trivial⟩

theorem c9_createInstanceF (load : LoadFn)
    (hload : ∀ (s : SMState) (n : String)
      (out : SMState × Except SMError JSValue),
      load s n = some out → PromOk s → PromOk out.1 ∧ ResOk out.2)
    (s : SMState) (ad : AdaptedServiceDefinition)
    (out : SMState × Except SMError (JSValue × List JSValue))
    (h : createInstanceF load s ad = some out) (hp : PromOk s) :
    PromOk out.1 ∧ ResOk out.2 := by
  unfold createInstanceF at h
  cases hip : injectionsPhase load s ad with
  | none => rw [hip] at h; simp at h
  | some p =>
    rw [hip, Option.map_some', Option.some_inj] at h
    obtain ⟨hp₁, hr₁⟩ := c9_injectionsPhase load hload s ad p hip hp
    rw [← h]
    exact c9_buildStep ad p hr₁ hp₁

theorem c9_getInstanceInternalF (load : LoadFn)
    (hload : ∀ (s : SMState) (n : String)
      (out : SMState × Except SMError JSValue),
      load s n = some out → PromOk s → PromOk out.1 ∧ ResOk out.2)
    (fuel : Nat) (s : SMState) (ad : AdaptedServiceDefinition)
    (out : SMState × Except SMError JSValue)
    (h : getInstanceInternalF load fuel s ad = some out) (hp : PromOk s) :
    PromOk out.1 ∧ ResOk out.2 := by
  unfold getInstanceInternalF at h
  by_cases hml : isModuleLoaded s.loadedServiceModules ad.serviceInstanceName
      = true
  · rw [if_pos hml, Option.some_bind] at h
    simp only [exceptStep] at h
    cases hci : createInstanceF load s ad with
    | none => rw [hci] at h; simp at h
    | some q =>
      rw [hci, Option.map_some', Option.some_inj] at h
      obtain ⟨hp₁, hr₁⟩ := c9_createInstanceF load hload s ad q hci hp
      rw [← h]
      exact c9_cacheStep ad q hr₁ hp₁
  · rw [if_neg hml] at h
    cases hres : resolveF fuel s ad with
    | none => rw [hres] at h; simp at h
    | some pr =>
      obtain ⟨s₂, rr⟩ := pr
      rw [hres, Option.some_bind] at h
      obtain ⟨hp₂, hr₂⟩ := c9_resolveF fuel s ad (s₂, rr) hres hp
      cases rr with
      | error e =>
        simp only [exceptStep] at h
        rw [Option.some_inj] at h
        rw [← h]
        exact ⟨hp₂, hr₂⟩
      | ok u =>
        simp only [exceptStep] at h
        cases hci : createInstanceF load s₂ ad with
        | none => rw [hci] at h; simp at h
        | some q =>
          rw [hci, Option.map_some', Option.some_inj] at h
          obtain ⟨hp₃, hr₃⟩ := c9_createInstanceF load hload s₂ ad q hci hp₂
          rw [← h]
          exact c9_cacheStep ad q hr₃ hp₃

theorem loadService_resOk :
    ∀ (fuel : Nat) (s : SMState) (name : String)
      (out : SMState × Except SMError JSValue),
      loadServiceFuel fuel s name = some out → PromOk s →
      PromOk out.1 ∧ ResOk out.2 := by
  intro fuel
  induction fuel with
  | zero => intro s name out h hp; simp [loadServiceFuel] at h
  | succ f ih =>
    intro s name out h hp
    simp only [loadServiceFuel] at h
    by_cases hc : truthy ((assocGet s.loadedServices name).getD .vUndefined)
        = true
    · rw [if_pos hc, Option.some_inj] at h
      rw [← h]
      exact ⟨hp, trivial⟩
    · rw [if_neg hc] at h
      cases hgd : getServiceDefinition s.defs name with
      | none =>
        rw [hgd] at h
        have h₁ : some ((s, Except.error (.definitionNotFound name)) :
            SMState × Except SMError JSValue) = some out := h
        rw [Option.some_inj] at h₁
        rw [← h₁]
        exact ⟨hp, fun i hi => SMError.noConfusion hi⟩
      | some d =>
        rw [hgd] at h
        have h₁ : getInstanceInternalF (loadServiceFuel f) f
            { s with
              defs := s.defs.set
                (s.defs.findIdx fun e => serviceDefinitionMatches e name)
                (adaptDef d) }
            ⟨adaptDef d, (adaptDef d).serviceInstanceName.getD ""⟩
            = some out := h
        exact c9_getInstanceInternalF (loadServiceFuel f)
          (fun s n o hh hpp => ih s n o hh hpp) f _ _ out h₁ hp

/-- C9: an injection spec is accepted only when it carries a
`serviceInstanceName` key (service reference, tested first) or a
`customInjection` key (custom injection); a spec with neither key makes
`parseInjections` raise Invalid Injection immediately, carrying that
offending spec and aborting with the state unchanged (first conjunct).
Conversely (second conjunct), every Invalid Injection error any load can
produce carries a spec of that invalid shape — so `parseInjections`
raises Invalid Injection exactly on the specs that match neither
tagged-union shape. -/
theorem claim_C9 :
    (∀ (load : LoadFn) (s : SMState) (inj : ServiceInjection)
      (rest : List ServiceInjection), badShape inj →
      parseInjectionsF load s (inj :: rest) =
        some (s, .error (.invalidInjection inj))) ∧
    (∀ (fuel : Nat) (s : SMState) (name : String)
      (out : SMState × Except SMError JSValue) (i : ServiceInjection),
      PromOk s → loadServiceFuel fuel s name = some out →
      out.2 = .error (.invalidInjection i) → badShape i) := by
  constructor
  · intro load s inj rest hbad
    obtain ⟨kn, kc⟩ := inj
    obtain ⟨h₁, h₂⟩ := hbad
    cases kn with
    | some n => exact absurd h₁ (by simp)
    | none =>
      cases kc with
      | some v => exact absurd h₂ (by simp)
      | none => rfl
  · intro fuel s name out i hp h hout
    obtain ⟨-, hres⟩ := loadService_resOk fuel s name out h hp
    rw [hout] at hres
    exact hres i rfl

theorem claim_C9_witness :
    (parseInjectionsF loadTrivial emptyS [injBad]
      = some (emptyS, .error (.invalidInjection injBad))) ∧
    badShape injBad :=
  ⟨claim_C9.1 loadTrivial emptyS injBad [] ⟨rfl, rfl⟩,
    claim_C9.2 2 s0C9 "Q" (s9After, .error (.invalidInjection injBad)) injBad
      (by intro p hp; simp [s0C9] at hp) (by decide) rfl⟩

end SvcM
